import Mathlib

/-!
Verification of the PyNeoFile archive core (src/pyneofile.py) against its
specification.  The byte-level container format, checksum and compression
dispatch, record codec and the pack/unpack pipelines are shallowly embedded:
byte strings are `List Nat` (each element a byte value), streams are consumed
from the front, and the external compression and hash libraries (zlib, gzip,
bz2, lzma, hashlib) that the source merely dispatches to are abstracted as a
structure of function parameters (`Ext`), with their documented contracts
stated as hypotheses where a claim needs them.  CRC-32 (zlib.crc32) is
implemented concretely as the standard reflected CRC-32 so that it is
executable.  Errors (`raise ValueError` sites and IndexError sites in the
source) are modelled by an explicit error type carried in `Except`.
-/

deriving instance DecidableEq for Except

namespace PyNeoFile

/-- Byte strings: each element is one byte value. -/
abbrev Bytes := List Nat

/-- ASCII string to byte list (all constant strings in the format are ASCII). -/
def ascii (s : String) : Bytes := s.toList.map Char.toNat

def bNone : Bytes := ascii ("none")

def bZlib : Bytes := ascii ("zlib")

def bGzip : Bytes := ascii ("gzip")

def bBz2 : Bytes := ascii ("bz2")

def bLzma : Bytes := ascii ("lzma")

def bAuto : Bytes := ascii ("auto")

def bCrc32 : Bytes := ascii ("crc32")

def bJson : Bytes := ascii ("json")

def bUTF8 : Bytes := ascii ("UTF-8")

/-- ASCII lowercase of one byte (`str.lower` restricted to ASCII, which is all
the dispatch code ever compares against). -/
def lowByte (c : Nat) : Nat := if 65 ≤ c ∧ c ≤ 90 then c + 32 else c

/-- `str.lower()` on a byte string. -/
def lower (s : Bytes) : Bytes := s.map lowByte

/-- Error type: one constructor per `raise` site (ValueError) or possible
IndexError in the modelled part of src/pyneofile.py, carrying the values
interpolated into the message. -/
inductive NeoErr where
  /-- `_parse_record`: "Record too short: expected >=25 header fields, got %d" -/
  | recordTooShort (got : Nat)
  /-- `_index_json_and_checks`: "Record too short: got %d" -/
  | indexTooShort (got : Nat)
  /-- `_parse_record`: "JSON checksum mismatch for %s" -/
  | jsonMismatch (fname : Bytes)
  /-- `_parse_record`: "Content checksum mismatch for %s" -/
  | contentMismatch (fname : Bytes)
  /-- `_checksum`: "Unsupported checksum: %r" -/
  | unsupportedChecksum (t : Bytes)
  /-- `_compress_bytes` / `_decompress_bytes`: "Unknown compression: %r" -/
  | unknownCompression (a : Bytes)
  /-- `_compress_bytes` / `_decompress_bytes`: "lzma not available" -/
  | lzmaUnavailable
  /-- a compression library raised during decompression -/
  | codecError (a : Bytes)
  /-- `int(x, 16)` raised ValueError -/
  | badHex (s : Bytes)
  /-- IndexError on an unguarded `vals[i]` -/
  | indexOut (i : Nat)
  /-- fuel exhaustion of the modelled record loop (never reached: each
  record consumes at least one byte of input) -/
  | loopLimit

deriving DecidableEq, Repr

/-- Hex digit character (lowercase, as produced by format %x). -/
def hexDigit (n : Nat) : Nat := if n < 10 then 48 + n else 87 + n

/-- Digits of `n` in hex, most significant first (fuel-based so that the
kernel can evaluate it; `n` itself is always enough fuel). -/
def hexCoreF : Nat → Nat → Bytes
  | 0, _ => []
  | fuel + 1, n => if n = 0 then [] else hexCoreF fuel (n / 16) ++ [hexDigit (n % 16)]

/-- Digits of `n` in hex, most significant first; empty for 0. -/
def hexCore (n : Nat) : Bytes := hexCoreF n n

/-- `_hex`: `format(n, "x")` (lowercase hex, no padding; 0 renders as "0"). -/
def hexStr (n : Nat) : Bytes := if n = 0 then [48] else hexCore n

/-- Numeric value of one hex character (0-9, a-f, A-F), as accepted
by `int(s, 16)`. -/
def hexVal (c : Nat) : Option Nat :=
  if 48 ≤ c ∧ c ≤ 57 then some (c - 48)
  else if 97 ≤ c ∧ c ≤ 102 then some (c - 87)
  else if 65 ≤ c ∧ c ≤ 70 then some (c - 55)
  else none

def parseHexCore : Bytes → Nat → Option Nat
  | [], acc => some acc
  | c :: r, acc =>
    match hexVal c with
    | some v => parseHexCore r (acc * 16 + v)
    | none => none

/-- `int(s, 16)` on a plain, non-empty hex numeral. -/
def parseHexOpt (s : Bytes) : Option Nat :=
  if s = [] then none else parseHexCore s 0

/-- `int(s or b"0", 16)` as used throughout the parser: empty fields read
as 0, invalid hex raises. -/
def parseHexD (s : Bytes) : Except NeoErr Nat :=
  if s = [] then .ok 0
  else match parseHexOpt s with
    | some n => .ok n
    | none => .error (.badHex s)

/-- One bit step of reflected CRC-32 (polynomial 0xEDB88320). -/
def crcStep (s : Nat) : Nat :=
  (s / 2) ^^^ (if s % 2 = 1 then 0xEDB88320 else 0)

/-- Process one byte: xor it into the state and run eight bit steps. -/
def crcByte (s b : Nat) : Nat :=
  crcStep (crcStep (crcStep (crcStep (crcStep (crcStep (crcStep (crcStep (s ^^^ b))))))))

/-- `zlib.crc32(data) & 0xffffffff`: standard reflected CRC-32. -/
def crc32 (data : Bytes) : Nat :=
  ((data.foldl crcByte 0xFFFFFFFF) ^^^ 0xFFFFFFFF) % 2 ^ 32

/-- `_crc32_hex`: `format(crc32(data) & 0xffffffff, "08x")` (zero-padded to
eight lowercase hex characters). -/
def crc32hex (data : Bytes) : Bytes :=
  List.replicate (8 - (hexStr (crc32 data)).length) 48 ++ hexStr (crc32 data)

/-- The external libraries src/pyneofile.py dispatches to (zlib, gzip, bz2,
lzma, hashlib).  Compressors take the level actually passed by the source;
decompressors may fail (the libraries raise on bad input); `hashhex` stands
for `getattr(hashlib, t)().hexdigest()` for t in the md5/sha family. -/
structure Ext where
  zlibC : Int → Bytes → Bytes
  zlibD : Bytes → Option Bytes
  gzipC : Int → Bytes → Bytes
  gzipD : Bytes → Option Bytes
  bz2C : Int → Bytes → Bytes
  bz2D : Bytes → Option Bytes
  lzmaAvail : Bool
  lzmaC : Option Int → Bytes → Bytes
  lzmaD : Bytes → Option Bytes
  hashhex : Bytes → Bytes → Bytes

/-- The md5/sha algorithm names accepted by `_checksum`. -/
def hashNames : List Bytes :=
  [ascii ("md5"), ascii ("sha1"), ascii ("sha224"), ascii ("sha256"),
   ascii ("sha384"), ascii ("sha512")]

/-- `_checksum(data, cstype)`: dispatch to the named digest; "none" gives
"0", crc32 gives the padded crc, the md5/sha family goes to hashlib, anything
else raises ValueError. -/
def checksum (ext : Ext) (data : Bytes) (cstype : Bytes) : Except NeoErr Bytes :=
  let t := lower (if cstype = [] then bNone else cstype)
  if t = [] ∨ t = bNone then .ok [48]
  else if t = bCrc32 then .ok (crc32hex data)
  else if t ∈ hashNames then .ok (ext.hashhex t data)
  else .error (.unsupportedChecksum cstype)

/-- `_norm_algo`. -/
def normAlgo (a : Bytes) : Bytes :=
  let a := lower (if a = [] then bNone else a)
  let a := if a = ascii ("gz") then bGzip else a
  let a := if a = ascii ("bz") ∨ a = ascii ("bzip") ∨ a = ascii ("bzip2") then bBz2 else a
  let a := if a = ascii ("z") then bZlib else a
  if a = ascii ("xz") then bLzma else a

/-- `_compress_bytes(data, algo, level)`: returns the stored bytes and the
algorithm name actually used. -/
def compressBytes (ext : Ext) (data : Bytes) (algo : Bytes) (level : Option Int) :
    Except NeoErr (Bytes × Bytes) :=
  let a := normAlgo algo
  if a = bNone then .ok (data, bNone)
  else if a = bZlib then .ok (ext.zlibC (level.getD (-1)) data, bZlib)
  else if a = bGzip then .ok (ext.gzipC (level.getD 9) data, bGzip)
  else if a = bBz2 then .ok (ext.bz2C (level.getD 9) data, bBz2)
  else if a = bLzma then
    if ext.lzmaAvail then .ok (ext.lzmaC level data, bLzma)
    else .error .lzmaUnavailable
  else .error (.unknownCompression a)

/-- `_decompress_bytes(data, algo)`. -/
def decompressBytes (ext : Ext) (data : Bytes) (algo : Bytes) : Except NeoErr Bytes :=
  let a := normAlgo algo
  if a = bNone then .ok data
  else if a = bZlib then
    match ext.zlibD data with | some v => .ok v | none => .error (.codecError a)
  else if a = bGzip then
    match ext.gzipD data with | some v => .ok v | none => .error (.codecError a)
  else if a = bBz2 then
    match ext.bz2D data with | some v => .ok v | none => .error (.codecError a)
  else if a = bLzma then
    if ext.lzmaAvail then
      match ext.lzmaD data with | some v => .ok v | none => .error (.codecError a)
    else .error .lzmaUnavailable
  else .error (.unknownCompression a)

/-- `_auto_pick_for_size(n)`. -/
def autoPick (n : Nat) : Bytes × Option Int :=
  if n < 16384 then (bNone, none)
  else if n ≥ 262144 then (bBz2, some 9)
  else (bZlib, some 6)

/-- `_read_cstring(fp, delim)` for the single-byte delimiter: the bytes up
to the first delimiter (stream repositioned after it); at end of stream the
remaining bytes are returned as the field.  The source's 4 KiB chunked scan
with seek-back is modelled by its observable effect on the stream. -/
def readCString (d : Nat) : Bytes → Bytes × Bytes
  | [] => ([], [])
  | c :: rest =>
    if c = d then ([], rest)
    else
      let p := readCString d rest
      (c :: p.1, p.2)

/-- `_read_fields(fp, n, delim)`. -/
def readFieldsN (d : Nat) : Nat → Bytes → List Bytes × Bytes
  | 0, s => ([], s)
  | n + 1, s =>
    let p := readCString d s
    let q := readFieldsN d n p.2
    (p.1 :: q.1, q.2)

/-- `_append_null(x, d)` with the default single NUL delimiter. -/
def appendNull (x : Bytes) : Bytes := x ++ [0]

/-- `_append_nulls(arr, d)`. -/
def appendNulls (arr : List Bytes) : Bytes := (arr.map appendNull).flatten

/-- `os.name` (provenance tag only; never interpreted on read). -/
def osName : Bytes := ascii ("posix")

/-- `_write_global_header` with the default formatspecs (magic "NeoFile",
version digits "001", single NUL delimiter) and no extras, returning the
emitted bytes. -/
def writeGlobalHeaderB (ext : Ext) (numfiles : Nat) (encoding checksumtype : Bytes) :
    Except NeoErr Bytes :=
  let extrasBlob := appendNull [48]
  let body := appendNulls
      [hexStr 9, encoding, osName, hexStr numfiles, hexStr extrasBlob.length, [48]]
    ++ appendNull checksumtype
  let tmp := body ++ [0]
  let hsz := hexStr (tmp.length - 1)
  let out := appendNull (ascii ("NeoFile001")) ++ appendNull hsz ++ body
  match checksum ext out checksumtype with
  | .error e => .error e
  | .ok cs => .ok (out ++ appendNull cs)

/-- The global-header fields `_parse_global_header` returns. -/
structure HdrInfo where
  fencoding : Bytes
  fnumfiles : Nat
  fostype : Bytes
  fextradata : List Bytes
  fchecksumtype : Bytes

deriving DecidableEq, Repr

/-- `_parse_global_header`, returning the header fields and the rest of the
stream. -/
def parseGlobalHeaderB (s : Bytes) : Except NeoErr (HdrInfo × Bytes) :=
  let p1 := readCString 0 s          -- magic+ver (unused here)
  let p2 := readCString 0 p1.2       -- headersize
  let p3 := readCString 0 p2.2       -- tmpoutlen
  let p4 := readCString 0 p3.2       -- fencoding
  let p5 := readCString 0 p4.2       -- fostype
  let p6 := readCString 0 p5.2       -- fnumfiles
  match parseHexD p6.1 with
  | .error e => .error e
  | .ok fnumfiles =>
    let p7 := readCString 0 p6.2     -- extras size
    let p8 := readCString 0 p7.2     -- extrafields
    match parseHexD p8.1 with
    | .error e => .error e
    | .ok extrafields =>
      let p9 := readFieldsN 0 extrafields p8.2
      let p10 := readCString 0 p9.2  -- checksumtype
      let p11 := readCString 0 p10.2 -- header checksum
      .ok ({ fencoding := if p4.1 = [] then bUTF8 else p4.1,
             fnumfiles,
             fostype := p5.1,
             fextradata := p9.1,
             fchecksumtype := p10.1 }, p11.2)

/-- `vals[i]` with IndexError. -/
def getF (vals : List Bytes) (i : Nat) : Except NeoErr Bytes :=
  if h : i < vals.length then .ok vals[i] else .error (.indexOut i)

def isHexChar (c : Nat) : Bool :=
  (48 ≤ c ∧ c ≤ 57) ∨ (97 ≤ c ∧ c ≤ 102) ∨ (65 ≤ c ∧ c ≤ 70)

/-- The `ishex` probe inside `_index_json_and_checks`: non-empty and all
characters hexadecimal. -/
def ishex (s : Bytes) : Bool := !s.isEmpty && s.all isHexChar

/-- The digest-name set probed during JSON-preamble disambiguation. -/
def csnames : List Bytes :=
  [ascii ("none"), ascii ("crc32"), ascii ("md5"), ascii ("sha1"),
   ascii ("sha224"), ascii ("sha256"), ascii ("sha384"), ascii ("sha512"),
   ascii ("blake2b"), ascii ("blake2s")]

/-- The field indices `_index_json_and_checks` returns. -/
structure JIdx where
  jType : Nat
  jLen : Option Nat
  jSize : Nat
  jCst : Nat
  jCs : Nat
  hCsT : Nat
  cCsT : Nat
  hCs : Nat
  cCs : Nat

deriving DecidableEq, Repr

/-- `_index_json_and_checks(vals)`. -/
def indexJsonAndChecks (vals : List Bytes) : Except NeoErr JIdx :=
  if vals.length < 25 then .error (.indexTooShort vals.length)
  else
    match getF vals 25 with
    | .error e => .error e
    | .ok _fjsontype =>
      let v2 := vals.getD 26 []
      let v3 := vals.getD 27 []
      let v4 := vals.getD 28 []
      let six := ishex v2 && ishex v3 && decide (lower v4 ∈ csnames)
      let jLen : Option Nat := if six then some 26 else none
      let jSize := if six then 27 else 26
      let jCst := if six then 28 else 27
      let jCs := if six then 29 else 28
      let eSize := if six then 30 else 29
      let eCount := eSize + 1
      match getF vals eCount with
      | .error e => .error e
      | .ok craw =>
        match parseHexD craw with
        | .error e => .error e
        | .ok count =>
          let base := eCount + 1 + count
          .ok { jType := 25, jLen, jSize, jCst, jCs,
                hCsT := base, cCsT := base + 1, hCs := base + 2, cCs := base + 3 }

/-- `./` or `/` at the start of a name (`name.startswith(("./", "/"))`). -/
def startsDotSlash (n : Bytes) : Bool :=
  match n with
  | 46 :: 47 :: _ => true
  | 47 :: _ => true
  | _ => false

/-- Name normalisation applied on both encode and decode. -/
def normName (n : Bytes) : Bytes := if startsDotSlash n then n else 46 :: 47 :: n

/-- `name.endswith("/")`. -/
def endsSlash (n : Bytes) : Bool := n.getLast? = some 47

/-- The parsed per-entry dictionary `_parse_record` returns.  `fjsonBytes`
holds the raw JSON payload bytes; the `json.loads` decoding of that payload
(whose failures are swallowed into `{}`) is not modelled, as no claim
depends on the decoded object. -/
structure Entry where
  fid : Nat
  finode : Nat
  fname : Bytes
  flinkname : Bytes
  ftype : Nat
  fsize : Nat
  fcsize : Nat
  fatime : Nat
  fmtime : Nat
  fctime : Nat
  fbtime : Nat
  fmode : Nat
  fwinattributes : Nat
  fuid : Nat
  funame : Bytes
  fgid : Nat
  fgname : Bytes
  fcompression : Bytes
  fseeknext : Bytes
  fjsonBytes : Bytes
  fcontent : Option Bytes

deriving DecidableEq, Repr

/-- Body of `_parse_record` from the field read loop onward, once the
record-fields count has been decoded. -/
def parseRecordCore (ext : Ext) (listonly skipchecksum uncompress skipjson : Bool)
    (nFields : Nat) (s : Bytes) : Except NeoErr (Option Entry × Bytes) :=
    let pv := readFieldsN 0 nFields s
    let vals := pv.1
    let s2 := pv.2
    if vals.length < 25 then .error (.recordTooShort vals.length)
    else
      match indexJsonAndChecks vals with
      | .error e => .error e
      | .ok idxs =>
        let g := fun i => vals.getD i []
        let fname := g 3
        match getF vals idxs.jSize with
        | .error e => .error e
        | .ok jsB =>
          match parseHexD jsB with
          | .error e => .error e
          | .ok fjsonsize =>
            -- JSON payload (seek over it, or read it plus its delimiter)
            let jp : Bytes × Bytes :=
              if fjsonsize > 0 then
                if listonly ∨ skipjson then ([], s2.drop (fjsonsize + 1))
                else (s2.take fjsonsize, (s2.drop fjsonsize).drop 1)
              else ([], s2.drop 1)
            let jsonBytes := jp.1
            let s3 := jp.2
            match parseHexD (g 5), parseHexD (g 13) with
            | .error e, _ => .error e
            | .ok _, .error e => .error e
            | .ok fsize, .ok fcsize =>
              let fcomp := g 12
              let storedLen :=
                if ¬(fcomp = [] ∨ fcomp = bNone) ∧ fcsize > 0 then fcsize else fsize
              let cp : Bytes × Bytes :=
                if storedLen ≠ 0 then
                  if listonly then ([], s3.drop storedLen)
                  else (s3.take storedLen, s3.drop storedLen)
                else ([], s3)
              let contentStored := cp.1
              let s4 := cp.2.drop 1
              match getF vals idxs.hCsT, getF vals idxs.cCsT,
                    getF vals idxs.hCs, getF vals idxs.cCs with
              | .error e, _, _, _ => .error e
              | _, .error e, _, _ => .error e
              | _, _, .error e, _ => .error e
              | _, _, _, .error e => .error e
              | .ok _hCsT, .ok cCsT, .ok _hCsV, .ok cCsV =>
                match getF vals idxs.jCst, getF vals idxs.jCs with
                | .error e, _ => .error e
                | _, .error e => .error e
                | .ok jCsT, .ok jCsV =>
                  let jsonCheck : Except NeoErr Unit :=
                    if fjsonsize ≠ 0 ∧ ¬skipchecksum ∧ ¬(listonly ∨ skipjson) then
                      match checksum ext jsonBytes jCsT with
                      | .error e => .error e
                      | .ok v => if v ≠ jCsV then .error (.jsonMismatch fname) else .ok ()
                    else .ok ()
                  match jsonCheck with
                  | .error e => .error e
                  | .ok _ =>
                    let contCheck : Except NeoErr Unit :=
                      if ¬skipchecksum ∧ storedLen ≠ 0 ∧ ¬listonly then
                        match checksum ext contentStored cCsT with
                        | .error e => .error e
                        | .ok v =>
                          if v ≠ cCsV then .error (.contentMismatch fname) else .ok ()
                      else .ok ()
                    match contCheck with
                    | .error e => .error e
                    | .ok _ =>
                      let contentRet :=
                        if ¬listonly ∧ uncompress ∧ ¬(fcomp = [] ∨ fcomp = bNone)
                            ∧ contentStored ≠ [] then
                          match decompressBytes ext contentStored fcomp with
                          | .ok v => v
                          | .error _ => contentStored
                        else contentStored
                      let name := normName fname
                      match parseHexD (g 18), parseHexD (g 19), parseHexD (g 0),
                            parseHexD (g 6), parseHexD (g 7) with
                      | .error e, _, _, _, _ => .error e
                      | _, .error e, _, _, _ => .error e
                      | _, _, .error e, _, _ => .error e
                      | _, _, _, .error e, _ => .error e
                      | _, _, _, _, .error e => .error e
                      | .ok fid, .ok finode, .ok ftype, .ok fatime, .ok fmtime =>
                        match parseHexD (g 8), parseHexD (g 9), parseHexD (g 10),
                              parseHexD (g 11), parseHexD (g 14), parseHexD (g 16) with
                        | .error e, _, _, _, _, _ => .error e
                        | _, .error e, _, _, _, _ => .error e
                        | _, _, .error e, _, _, _ => .error e
                        | _, _, _, .error e, _, _ => .error e
                        | _, _, _, _, .error e, _ => .error e
                        | _, _, _, _, _, .error e => .error e
                        | .ok fctime, .ok fbtime, .ok fmode, .ok fwinattrs,
                          .ok fuid, .ok fgid =>
                          .ok (some
                            { fid, finode, fname := name, flinkname := g 4, ftype,
                              fsize, fcsize, fatime, fmtime, fctime, fbtime, fmode,
                              fwinattributes := fwinattrs, fuid, funame := g 15,
                              fgid, fgname := g 17,
                              fcompression := if fcomp = [] then bNone else fcomp,
                              fseeknext := g 24, fjsonBytes := jsonBytes,
                              fcontent := if listonly then none else some contentRet },
                            s4)

/-- Body of `_parse_record` once the record-fields-count field has been
read (both entry branches of the source converge here). -/
def parseRecordBody (ext : Ext) (listonly skipchecksum uncompress skipjson : Bool)
    (flHex : Bytes) (s : Bytes) : Except NeoErr (Option Entry × Bytes) :=
  match parseHexD flHex with
  | .error e => .error e
  | .ok nFields => parseRecordCore ext listonly skipchecksum uncompress skipjson nFields s

/-- `_parse_record`: returns `none` at the `0`,`0` end marker, otherwise the
parsed entry and the remaining stream. -/
def parseRecord (ext : Ext) (listonly skipchecksum uncompress skipjson : Bool)
    (s : Bytes) : Except NeoErr (Option Entry × Bytes) :=
  let p1 := readCString 0 s
  if p1.1 = [48] then
    let p2 := readCString 0 p1.2
    if p2.1 = [48] then .ok (none, p2.2)
    else parseRecordBody ext listonly skipchecksum uncompress skipjson p2.1 p2.2
  else
    let p2 := readCString 0 p1.2
    parseRecordBody ext listonly skipchecksum uncompress skipjson p2.1 p2.2

/-- The record loop of `archive_to_array_neo`, with fuel.  Each successful
`parseRecord` consumes at least one byte, so fuel `s.length + 1` always
suffices and `loopLimit` is unreachable at the call site below. -/
def parseList (ext : Ext) (listonly skipchecksum uncompress skipjson : Bool) :
    Nat → Bytes → Except NeoErr (List Entry)
  | 0, _ => .error .loopLimit
  | fuel + 1, s =>
    match parseRecord ext listonly skipchecksum uncompress skipjson s with
    | .error e => .error e
    | .ok (none, _) => .ok []
    | .ok (some e, rest) =>
      match parseList ext listonly skipchecksum uncompress skipjson fuel rest with
      | .error err => .error err
      | .ok es => .ok (e :: es)

/-- The dictionary `archive_to_array_neo` returns. -/
structure ArcTop where
  fencoding : Bytes
  fnumfiles : Nat
  fostype : Bytes
  fextradata : List Bytes
  fchecksumtype : Bytes
  ffilelist : List Entry

deriving DecidableEq, Repr

/-- `archive_to_array_neo(infile, ...)` on an in-memory byte source with the
default formatspecs. -/
def archiveToArrayNeo (ext : Ext) (s : Bytes)
    (listonly skipchecksum uncompress skipjson : Bool) : Except NeoErr ArcTop :=
  match parseGlobalHeaderB s with
  | .error e => .error e
  | .ok (h, rest) =>
    match parseList ext listonly skipchecksum uncompress skipjson (rest.length + 1) rest with
    | .error e => .error e
    | .ok es =>
      .ok { fencoding := h.fencoding, fnumfiles := h.fnumfiles, fostype := h.fostype,
            fextradata := h.fextradata, fchecksumtype := h.fchecksumtype,
            ffilelist := es }

/-- The metadata map handed to `_build_record` (all keys the builders set). -/
structure RecMeta where
  ftype : Nat
  fencoding : Bytes
  fcencoding : Bytes
  fname : Bytes
  flinkname : Bytes
  fsize : Nat
  fatime : Nat
  fmtime : Nat
  fctime : Nat
  fbtime : Nat
  fmode : Nat
  fwinattributes : Nat
  fcompression : Bytes
  fcsize : Nat
  fuid : Nat
  funame : Bytes
  fgid : Nat
  fgname : Bytes
  fid : Nat
  finode : Nat
  flinkcount : Nat
  fdev : Nat
  fdevminor : Nat
  fdevmajor : Nat

deriving DecidableEq, Repr

/-- The 25 fixed fields `_build_record` emits (the last is the seek hint,
`_hex(len(d))`). -/
def recFixedFields (meta : RecMeta) : List Bytes :=
  [hexStr meta.ftype, meta.fencoding, meta.fcencoding,
   normName meta.fname, meta.flinkname,
   hexStr meta.fsize, hexStr meta.fatime, hexStr meta.fmtime,
   hexStr meta.fctime, hexStr meta.fbtime,
   hexStr meta.fmode, hexStr meta.fwinattributes,
   meta.fcompression, hexStr meta.fcsize,
   hexStr meta.fuid, meta.funame, hexStr meta.fgid, meta.fgname,
   hexStr meta.fid, hexStr meta.finode, hexStr meta.flinkcount,
   hexStr meta.fdev, hexStr meta.fdevminor, hexStr meta.fdevmajor,
   hexStr 1]

/-- A non-empty per-entry JSON object is represented by its key count and
its serialized bytes (`json.dumps` itself is not modelled); `none` is the
empty dict the pack pipelines always pass. -/
abbrev JsonObj := Option (Nat × Bytes)

/-- Everything `_build_record` emits before the content payload: sizes,
delimited fields, both record digests, the raw JSON bytes and the JSON
delimiter. -/
def recMainB (ext : Ext) (meta : RecMeta) (jsonObj : JsonObj) (contentStored : Bytes)
    (cst : Bytes × Bytes × Bytes) : Except NeoErr Bytes :=
  let jpart : Except NeoErr (Bytes × Bytes × Bytes × Bytes × Bytes × Bytes) :=
    match jsonObj with
    | some (n, raw) =>
      match checksum ext raw cst.2.2 with
      | .error e => .error e
      | .ok cs => .ok (raw, bJson, hexStr n, hexStr raw.length, cst.2.2, cs)
    | none => .ok ([], bNone, [48], [48], bNone, [48])
  match jpart with
  | .error e => .error e
  | .ok (rawJson, jt, jlenH, jsizeH, jct, jcv) =>
    let cCsT := if contentStored ≠ [] then cst.2.1 else bNone
    let recFields := recFixedFields meta
      ++ [jt, jlenH, jsizeH, jct, jcv, hexStr 2, [48]]
      ++ [cst.1, cCsT]
    let recLenH := hexStr (recFields.length + 2)
    let headerNoCs := appendNulls recFields
    let tmp := appendNull recLenH ++ headerNoCs ++ [0] ++ [0]
    let hszH := hexStr (tmp.length - 1)
    let hws := appendNull hszH ++ appendNull recLenH ++ headerNoCs
    match checksum ext hws cst.1 with
    | .error e => .error e
    | .ok hcs =>
      match checksum ext contentStored cCsT with
      | .error e => .error e
      | .ok ccs =>
        .ok (hws ++ appendNull hcs ++ appendNull ccs ++ rawJson ++ [0])

/-- `_build_record(fs, meta, jsondata, content_stored, checksumtypes)` with
the default formatspecs. -/
def buildRecord (ext : Ext) (meta : RecMeta) (jsonObj : JsonObj) (contentStored : Bytes)
    (cst : Bytes × Bytes × Bytes) : Except NeoErr Bytes :=
  match recMainB ext meta jsonObj contentStored cst with
  | .error e => .error e
  | .ok m => .ok (m ++ contentStored ++ [0])

def MODE_FILE_DEF : Nat := 33206   -- S_IFREG | 0o666

def MODE_DIR_DEF : Nat := 16877    -- S_IFDIR | 0o755

/-- A dict-shaped item handed to `pack_iter_neo`
(`{name, is_dir, data, mode?, mtime?}`). -/
structure Item where
  name : Bytes
  isDir : Bool
  data : Option Bytes
  mode : Option Nat := none
  mtime : Option Nat := none

deriving DecidableEq, Repr

/-- `name.replace("\\", "/")` on bytes. -/
def replaceBS (n : Bytes) : Bytes := n.map fun c => if c = 92 then 47 else c

/-- Codec selection in the pack loop: lowercase the requested name and
resolve "auto" by payload size, with the explicit level taking precedence. -/
def pickAlgo (compression : Bytes) (level : Option Int) (rawLen : Nat) :
    Bytes × Option Int :=
  let algo0 := lower (if compression = [] then bNone else compression)
  if algo0 = bAuto then
    let p := autoPick rawLen
    (p.1, if level.isSome then level else p.2)
  else (algo0, level)

/-- The compress step of the pack loop, including the single fallback to
zlib (at the provided level, or 6) when the chosen codec raises. -/
def storedOf (ext : Ext) (raw : Bytes) (algo : Bytes) (level : Option Int) :
    Except NeoErr (Bytes × Bytes) :=
  match compressBytes ext raw algo level with
  | .ok p => .ok p
  | .error _ =>
    compressBytes ext raw bZlib (some (match level with | none => 6 | some l => l))

/-- The payload and entry type the pack loop chooses for an item: the name
is normalised first, then directories (or slash-terminated names) get an
empty payload and type 5, files get their data and type 0. -/
def itemRawT (it : Item) : Bytes × Nat :=
  if it.isDir ∨ endsSlash (normName (replaceBS it.name)) then ([], 5)
  else (it.data.getD [], 0)

/-- The record metadata one `pack_iter_neo` iteration hands to
`_build_record`, given the stored bytes and the algorithm actually used. -/
def itemMeta (now : Nat) (encoding : Bytes) (fid : Nat) (it : Item)
    (su : Bytes × Bytes) : RecMeta :=
  { ftype := (itemRawT it).2, fencoding := encoding, fcencoding := encoding,
    fname := normName (replaceBS it.name), flinkname := [],
    fsize := (itemRawT it).1.length,
    fatime := it.mtime.getD now, fmtime := it.mtime.getD now,
    fctime := it.mtime.getD now, fbtime := it.mtime.getD now,
    fmode := it.mode.getD (if it.isDir then MODE_DIR_DEF else MODE_FILE_DEF),
    fwinattributes := 0,
    fcompression := su.2, fcsize := su.1.length,
    fuid := 0, funame := [], fgid := 0, fgname := [],
    fid, finode := fid, flinkcount := 1,
    fdev := 0, fdevminor := 0, fdevmajor := 0 }

/-- One iteration of the `pack_iter_neo` loop for a dict-shaped item:
normalise the name, choose type and payload, compress (with the zlib
fallback), build the record. -/
def packItemRec (ext : Ext) (now : Nat) (cst : Bytes × Bytes × Bytes)
    (encoding compression : Bytes) (level : Option Int) (fid : Nat) (it : Item) :
    Except NeoErr Bytes :=
  match storedOf ext (itemRawT it).1
      (pickAlgo compression level (itemRawT it).1.length).1
      (pickAlgo compression level (itemRawT it).1.length).2 with
  | .error e => .error e
  | .ok su => buildRecord ext (itemMeta now encoding fid it su) none su.1 cst

/-- The record-emitting loop of `pack_iter_neo` (fid counts up from the
given start). -/
def packItemsRec (ext : Ext) (now : Nat) (cst : Bytes × Bytes × Bytes)
    (encoding compression : Bytes) (level : Option Int) :
    Nat → List Item → Except NeoErr Bytes
  | _, [] => .ok []
  | fid, it :: rest =>
    match packItemRec ext now cst encoding compression level fid it with
    | .error e => .error e
    | .ok r =>
      match packItemsRec ext now cst encoding compression level (fid + 1) rest with
      | .error e => .error e
      | .ok rs => .ok (r ++ rs)

/-- The archive end marker: the two fields `"0"`, `"0"`. -/
def endMarker : Bytes := appendNulls [[48], [48]]

/-- `pack_iter_neo(items, ...)` with the in-memory sink (`outfile` absent or
`"-"`) and the default formatspecs, returning the archive bytes. -/
def packIterNeo (ext : Ext) (now : Nat) (items : List Item)
    (cst : Bytes × Bytes × Bytes) (encoding compression : Bytes)
    (level : Option Int) : Except NeoErr Bytes :=
  match writeGlobalHeaderB ext items.length encoding cst.1 with
  | .error e => .error e
  | .ok hdr =>
    match packItemsRec ext now cst encoding compression level 0 items with
    | .error e => .error e
    | .ok body => .ok (hdr ++ body ++ endMarker)

/-- The dict path of `pack_neo`: a mapping (insertion-ordered, as Python
dicts are) from name to bytes, `None` or a trailing slash marking a
directory. -/
def packNeoDict (ext : Ext) (now : Nat) (infiles : List (Bytes × Option Bytes))
    (cst : Bytes × Bytes × Bytes) (encoding compression : Bytes)
    (level : Option Int) : Except NeoErr Bytes :=
  packIterNeo ext now
    (infiles.map fun p =>
      let isDir := p.2.isNone ∨ endsSlash p.1
      { name := p.1, isDir, data := if isDir then none else p.2 })
    cst encoding compression level

/-- `unpack_neo(infile, outdir="-")`: the in-memory result, a name-keyed
mapping with `None` for directories. -/
def unpackNeoMem (ext : Ext) (s : Bytes) (skipchecksum uncompress : Bool) :
    Except NeoErr (List (Bytes × Option Bytes)) :=
  match archiveToArrayNeo ext s false skipchecksum uncompress false with
  | .error e => .error e
  | .ok top =>
    .ok (top.ffilelist.map fun e =>
      (e.fname, if e.ftype = 5 then none else some (e.fcontent.getD [])))

/-! ### Framing lemmas: delimiter-scanned fields -/

/-- A byte string containing no delimiter byte (fields must satisfy this to
frame correctly). -/
def NulFree (s : Bytes) : Prop := ∀ b ∈ s, b ≠ 0

instance (s : Bytes) : Decidable (NulFree s) := by unfold NulFree; infer_instance

/-! ### Global header round-trip -/

/-- The bytes `_write_global_header` emits for the default formatspecs, no
extras, and crc32 as the header digest. -/
def ghBytes (nf : Nat) (enc : Bytes) : Bytes :=
  let body := appendNulls
      [hexStr 9, enc, osName, hexStr nf, hexStr (appendNull [48]).length, [48]]
    ++ appendNull bCrc32
  let hsz := hexStr ((body ++ [0]).length - 1)
  let out := appendNull (ascii ("NeoFile001")) ++ appendNull hsz ++ body
  out ++ appendNull (crc32hex out)

/-! ### Record codec: structure of an emitted record -/

/-- The content digest-type name the builder emits (`checksumtypes[1]` when
there is stored content, else "none"). -/
def contCsT (stored cCs : Bytes) : Bytes := if stored ≠ [] then cCs else bNone

/-- The stored-content length the parser computes from the record fields. -/
def storedLenOf (meta : RecMeta) : Nat :=
  if ¬(meta.fcompression = [] ∨ meta.fcompression = bNone) ∧ meta.fcsize > 0 then
    meta.fcsize
  else meta.fsize

/-- The 34 delimited fields of a record with empty JSON side-data, before
the two digest values. -/
def recVals34 (meta : RecMeta) (hCsT cCsT : Bytes) : List Bytes :=
  recFixedFields meta ++ [bNone, [48], [48], bNone, [48], hexStr 2, [48]] ++ [hCsT, cCsT]

/-- `header_with_sizes` of a record with empty JSON side-data: the part of
the record the header digest covers. -/
def recHws (meta : RecMeta) (hCsT cCsT : Bytes) : Bytes :=
  let vals := recVals34 meta hCsT cCsT
  let hsz := hexStr ((appendNull (hexStr 36) ++ appendNulls vals ++ [0] ++ [0]).length - 1)
  appendNull hsz ++ appendNull (hexStr 36) ++ appendNulls vals

/-! ### The pack loop under the default settings (auto codec, crc32) -/

/-- The stored bytes and recorded algorithm for a payload under "auto"
selection (the fallback branch is unreachable for auto picks). -/
def autoStored (ext : Ext) (raw : Bytes) : Bytes × Bytes :=
  let p := autoPick raw.length
  match compressBytes ext raw p.1 p.2 with
  | .ok q => q
  | .error _ => (ext.zlibC 6 raw, bZlib)

/-- The entry that parsing gives back for an item packed with the default
settings (compression "auto", no explicit level, crc32 digests). -/
def packedEntryAuto (ext : Ext) (now : Nat) (unc : Bool) (fid : Nat) (it : Item) :
    Entry :=
  let sa := autoStored ext (itemRawT it).1
  let mtime := it.mtime.getD now
  { fid, finode := fid, fname := normName (replaceBS it.name), flinkname := [],
    ftype := (itemRawT it).2,
    fsize := (itemRawT it).1.length, fcsize := sa.1.length,
    fatime := mtime, fmtime := mtime, fctime := mtime, fbtime := mtime,
    fmode := it.mode.getD (if it.isDir then MODE_DIR_DEF else MODE_FILE_DEF),
    fwinattributes := 0, fuid := 0, funame := [], fgid := 0, fgname := [],
    fcompression := if sa.2 = [] then bNone else sa.2,
    fseeknext := hexStr 1, fjsonBytes := [],
    fcontent := some
      (if unc = true ∧ ¬(sa.2 = [] ∨ sa.2 = bNone) ∧ sa.1 ≠ [] then
        match decompressBytes ext sa.1 sa.2 with
        | .ok v => v
        | .error _ => sa.1
      else sa.1) }

/-- The entries a default-settings archive parses back to, with ids counting
up from `fid`. -/
def packedEntriesAuto (ext : Ext) (now : Nat) (unc : Bool) :
    Nat → List Item → List Entry
  | _, [] => []
  | fid, it :: rest =>
    packedEntryAuto ext now unc fid it :: packedEntriesAuto ext now unc (fid + 1) rest

/-- The item `pack_neo`'s dict path builds for a name/data pair. -/
def itemOfPair (p : Bytes × Option Bytes) : Item :=
  { name := p.1, isDir := p.2.isNone ∨ endsSlash p.1,
    data := if p.2.isNone ∨ endsSlash p.1 then none else p.2 }

/-- A pair is well-formed for exact round-tripping: NUL-free normalised
name with no backslashes, and file names do not end in a slash. -/
def PairOK (p : Bytes × Option Bytes) : Prop :=
  NulFree p.1 ∧ startsDotSlash p.1 = true ∧ (∀ c ∈ p.1, c ≠ 92) ∧
    (p.2 ≠ none → endsSlash p.1 = false)

instance (p : Bytes × Option Bytes) : Decidable (PairOK p) := by
  unfold PairOK; infer_instance

/-! ### Concrete codec environment for witnesses

Injective, length-increasing stand-ins for the zlib/gzip/bz2/lzma bindings:
each compressor tags the payload with a distinct marker byte and each
decompressor strips it. -/

def ext0 : Ext :=
  { zlibC := fun _ d => 122 :: d,
    zlibD := fun s => match s with | 122 :: d => some d | _ => none,
    gzipC := fun _ d => 103 :: d,
    gzipD := fun s => match s with | 103 :: d => some d | _ => none,
    bz2C := fun _ d => 98 :: d,
    bz2D := fun s => match s with | 98 :: d => some d | _ => none,
    lzmaAvail := true,
    lzmaC := fun _ d => 120 :: d,
    lzmaD := fun s => match s with | 120 :: d => some d | _ => none,
    hashhex := fun _ _ => [48] }

/-- A concrete one-byte zlib-marked record metadata for exercising the
silent-decompress path. -/
def metaC10 : RecMeta :=
  { ftype := 0, fencoding := bUTF8, fcencoding := bUTF8, fname := [46, 47, 97],
    flinkname := [], fsize := 1, fatime := 0, fmtime := 0, fctime := 0,
    fbtime := 0, fmode := 0, fwinattributes := 0, fcompression := bZlib,
    fcsize := 1, fuid := 0, funame := [], fgid := 0, fgname := [],
    fid := 0, finode := 0, flinkcount := 1, fdev := 0, fdevminor := 0,
    fdevmajor := 0 }

/-- A minimal record metadata (empty names, no content) for exercising the
emitter. -/
def meta0 : RecMeta :=
  { ftype := 0, fencoding := bUTF8, fcencoding := bUTF8, fname := [46, 47, 98],
    flinkname := [], fsize := 0, fatime := 0, fmtime := 0, fctime := 0,
    fbtime := 0, fmode := 0, fwinattributes := 0, fcompression := [],
    fcsize := 0, fuid := 0, funame := [], fgid := 0, fgname := [],
    fid := 0, finode := 0, flinkcount := 1, fdev := 0, fdevminor := 0,
    fdevmajor := 0 }

/-- The bytes `_build_record` emits for `meta0`, no JSON, no content, all
digest types "none". -/
def rec6 : Bytes :=
  match buildRecord ext0 meta0 none [] (bNone, bNone, bNone) with
  | .ok r => r
  | .error _ => []

/-- A one-byte-content record metadata with no compression, for the
truncation counterexample. -/
def meta8 : RecMeta :=
  { ftype := 0, fencoding := bUTF8, fcencoding := bUTF8, fname := [46, 47, 99],
    flinkname := [], fsize := 0, fatime := 0, fmtime := 0, fctime := 0,
    fbtime := 0, fmode := 0, fwinattributes := 0, fcompression := [],
    fcsize := 0, fuid := 0, funame := [], fgid := 0, fgname := [],
    fid := 0, finode := 0, flinkcount := 1, fdev := 0, fdevminor := 0,
    fdevmajor := 0 }

/-- `Except.isOk` as a plain definition over the embedding's results. -/
def isOkE (x : Except NeoErr (Option Entry × Bytes)) : Bool :=
  match x with
  | .ok _ => true
  | .error _ => false

/-! ### CRC-32 detects single-byte corruption -/

/-- Inverse of one CRC bit step on 32-bit states. -/
def crcStepInv (t : Nat) : Nat :=
  if 2 ^ 31 ≤ t then 2 * (t ^^^ 0xEDB88320) + 1 else 2 * t

/-- A one-byte uncompressed-content record metadata for the corruption
witness. -/
def meta7 : RecMeta :=
  { ftype := 0, fencoding := bUTF8, fcencoding := bUTF8, fname := [46, 47, 100],
    flinkname := [], fsize := 1, fatime := 0, fmtime := 0, fctime := 0,
    fbtime := 0, fmode := 0, fwinattributes := 0, fcompression := [],
    fcsize := 0, fuid := 0, funame := [], fgid := 0, fgname := [],
    fid := 0, finode := 0, flinkcount := 1, fdev := 0, fdevminor := 0,
    fdevmajor := 0 }

/-! ### Theorems -/

theorem readCString_app (f r : Bytes) (h : NulFree f) :
    readCString 0 (f ++ 0 :: r) = (f, r) := by
  induction f with
  | nil => simp [readCString]
  | cons c rest ih =>
    have hc : c ≠ 0 := h c (by simp)
    have hr : NulFree rest := fun b hb => h b (by simp [hb])
    simp [readCString, hc, ih hr]

theorem readCString_cons0 (r : Bytes) : readCString 0 (0 :: r) = ([], r) := by
  simp [readCString]

theorem readCString_consNe (c : Nat) (r : Bytes) (h : ¬ c = 0) :
    readCString 0 (c :: r) = (c :: (readCString 0 r).1, (readCString 0 r).2) := by
  simp [readCString, h]

theorem readCString_cons48 (r : Bytes) :
    readCString 0 (48 :: r) = (48 :: (readCString 0 r).1, (readCString 0 r).2) :=
  readCString_consNe 48 r (by omega)

theorem appendNulls_cons (f : Bytes) (fs : List Bytes) :
    appendNulls (f :: fs) = f ++ 0 :: appendNulls fs := by
  simp [appendNulls, appendNull]

theorem appendNulls_nil : appendNulls [] = [] := by
  simp [appendNulls]

theorem appendNulls_append (a b : List Bytes) :
    appendNulls (a ++ b) = appendNulls a ++ appendNulls b := by
  simp [appendNulls]

theorem readFieldsN_app (fs : List Bytes) (r : Bytes) (h : ∀ f ∈ fs, NulFree f) :
    readFieldsN 0 fs.length (appendNulls fs ++ r) = (fs, r) := by
  induction fs with
  | nil => simp [readFieldsN, appendNulls]
  | cons f rest ih =>
    have hf : NulFree f := h f (by simp)
    have hr : ∀ g ∈ rest, NulFree g := fun g hg => h g (by simp [hg])
    simp only [List.length_cons, readFieldsN, appendNulls_cons, List.append_assoc,
      List.cons_append, readCString_app f (appendNulls rest ++ r) hf]
    simp [ih hr]

/-! ### Hex formatting and parsing -/

theorem hexCoreF_congr (f1 : Nat) : ∀ f2 n, n ≤ f1 → n ≤ f2 →
    hexCoreF f1 n = hexCoreF f2 n := by
  induction f1 with
  | zero =>
    intro f2 n h1 _
    interval_cases n
    cases f2 <;> simp [hexCoreF]
  | succ f ih =>
    intro f2 n h1 h2
    by_cases hn : n = 0
    · subst hn; cases f2 <;> simp [hexCoreF]
    · obtain ⟨f2p, rfl⟩ : ∃ k, f2 = k + 1 := ⟨f2 - 1, by omega⟩
      have hd : n / 16 < n := Nat.div_lt_self (by omega) (by omega)
      simp only [hexCoreF, hn, if_false]
      rw [ih f2p (n / 16) (by omega) (by omega)]

theorem hexCore_rec (n : Nat) (hn : n ≠ 0) :
    hexCore n = hexCore (n / 16) ++ [hexDigit (n % 16)] := by
  obtain ⟨m, rfl⟩ : ∃ k, n = k + 1 := ⟨n - 1, by omega⟩
  have hd : (m + 1) / 16 < m + 1 := Nat.div_lt_self (by omega) (by omega)
  show hexCoreF (m + 1) (m + 1) = _
  simp only [hexCoreF, Nat.succ_ne_zero, if_false]
  rw [hexCoreF_congr m ((m + 1) / 16) ((m + 1) / 16) (by omega) (le_refl _)]
  rfl

theorem hexDigit_range (d : Nat) (h : d < 16) :
    (48 ≤ hexDigit d ∧ hexDigit d ≤ 57) ∨ (97 ≤ hexDigit d ∧ hexDigit d ≤ 102) := by
  unfold hexDigit; split <;> omega

theorem hexVal_hexDigit (d : Nat) (h : d < 16) : hexVal (hexDigit d) = some d := by
  unfold hexVal hexDigit
  by_cases h10 : d < 10
  · rw [if_pos h10, if_pos (by omega)]
    congr 1
    omega
  · rw [if_neg h10, if_neg (by omega), if_pos (by omega)]
    congr 1
    omega

theorem hexDigit_ne_zero (d : Nat) (h : d < 16) : hexDigit d ≠ 0 := by
  rcases hexDigit_range d h with ⟨h1, _⟩ | ⟨h1, _⟩ <;> omega

theorem hexCore_nulFree (n : Nat) : NulFree (hexCore n) := by
  induction n using Nat.strong_induction_on with
  | _ n ih =>
    by_cases hn : n = 0
    · subst hn; intro b hb; simp [hexCore, hexCoreF] at hb
    · rw [hexCore_rec n hn]
      intro b hb
      rcases List.mem_append.1 hb with h | h
      · exact ih (n / 16) (Nat.div_lt_self (by omega) (by omega)) b h
      · simp at h
        subst h
        exact hexDigit_ne_zero _ (Nat.mod_lt _ (by omega))

theorem hexStr_nulFree (n : Nat) : NulFree (hexStr n) := by
  unfold hexStr
  split
  · intro b hb; simp at hb; omega
  · exact hexCore_nulFree n

theorem hexCore_ne_nil (n : Nat) (hn : n ≠ 0) : hexCore n ≠ [] := by
  rw [hexCore_rec n hn]; simp

theorem hexStr_ne_nil (n : Nat) : hexStr n ≠ [] := by
  unfold hexStr
  split
  · simp
  · exact hexCore_ne_nil n (by assumption)

theorem parseHexCore_append (a b : Bytes) (acc : Nat) :
    parseHexCore (a ++ b) acc =
      match parseHexCore a acc with
      | some v => parseHexCore b v
      | none => none := by
  induction a generalizing acc with
  | nil => simp [parseHexCore]
  | cons c r ih =>
    simp only [List.cons_append, parseHexCore]
    cases hexVal c with
    | none => simp
    | some v => simp [ih]

theorem parseHexCore_hexCore (n : Nat) : ∀ acc,
    parseHexCore (hexCore n) acc = some (acc * 16 ^ (hexCore n).length + n) := by
  induction n using Nat.strong_induction_on with
  | _ n ih =>
    intro acc
    by_cases hn : n = 0
    · subst hn; simp [hexCore, hexCoreF, parseHexCore]
    · rw [hexCore_rec n hn, parseHexCore_append]
      rw [ih (n / 16) (Nat.div_lt_self (by omega) (by omega)) acc]
      simp only [parseHexCore, hexVal_hexDigit (n % 16) (Nat.mod_lt _ (by omega))]
      simp only [List.length_append, List.length_singleton]
      congr 1
      have h1 : n / 16 * 16 + n % 16 = n := by
        rw [Nat.mul_comm]
        exact Nat.div_add_mod n 16
      have : (acc * 16 ^ (hexCore (n / 16)).length + n / 16) * 16 + n % 16
          = acc * (16 ^ (hexCore (n / 16)).length * 16) + (n / 16 * 16 + n % 16) := by ring
      rw [this, h1, ← pow_succ]

theorem parseHexOpt_hexStr (n : Nat) : parseHexOpt (hexStr n) = some n := by
  by_cases hn : n = 0
  · subst hn; simp [hexStr, parseHexOpt, parseHexCore, hexVal]
  · unfold parseHexOpt hexStr
    simp only [hn, if_false, hexCore_ne_nil n hn, if_false]
    rw [parseHexCore_hexCore n 0]
    simp

theorem parseHexD_hexStr (n : Nat) : parseHexD (hexStr n) = .ok n := by
  unfold parseHexD
  simp [hexStr_ne_nil n, parseHexOpt_hexStr n]

theorem hexStr_inj (m n : Nat) (h : hexStr m = hexStr n) : m = n := by
  have h1 := parseHexOpt_hexStr m
  rw [h, parseHexOpt_hexStr n] at h1
  exact (Option.some.injEq _ _ ▸ h1).symm

theorem hexStr_eq_zero_iff (n : Nat) : hexStr n = [48] ↔ n = 0 := by
  constructor
  · intro h
    exact hexStr_inj n 0 (by rw [h]; rfl)
  · intro h; subst h; rfl

theorem isHexChar_hexDigit (d : Nat) (h : d < 16) : isHexChar (hexDigit d) = true := by
  unfold isHexChar
  rcases hexDigit_range d h with ⟨h1, h2⟩ | ⟨h1, h2⟩ <;> simp <;> omega

theorem ishex_hexStr (n : Nat) : ishex (hexStr n) = true := by
  have hall : ∀ b ∈ hexStr n, isHexChar b = true := by
    unfold hexStr
    split
    · intro b hb; simp at hb; subst hb; rfl
    · intro b hb
      clear * - hb
      induction n using Nat.strong_induction_on with
      | _ n ih =>
        by_cases hn : n = 0
        · subst hn; simp [hexCore, hexCoreF] at hb
        · rw [hexCore_rec n hn] at hb
          rcases List.mem_append.1 hb with h | h
          · exact ih (n / 16) (Nat.div_lt_self (by omega) (by omega)) h
          · simp at h; subst h
            exact isHexChar_hexDigit _ (Nat.mod_lt _ (by omega))
  unfold ishex
  simp only [Bool.and_eq_true, Bool.not_eq_true', List.all_eq_true]
  refine ⟨?_, hall⟩
  simp [List.isEmpty_iff, hexStr_ne_nil n]

/-! ### Checksum dispatch lemmas -/

theorem crc32hex_nulFree (d : Bytes) : NulFree (crc32hex d) := by
  unfold crc32hex
  intro b hb
  rcases List.mem_append.1 hb with h | h
  · simp [List.mem_replicate] at h
    omega
  · exact hexStr_nulFree _ b h

theorem checksum_crc32 (ext : Ext) (d : Bytes) :
    checksum ext d bCrc32 = .ok (crc32hex d) := by
  rfl

theorem checksum_bNone (ext : Ext) (d : Bytes) : checksum ext d bNone = .ok [48] := by
  rfl

theorem checksum_nil (ext : Ext) (d : Bytes) : checksum ext d [] = .ok [48] := by
  rfl

/-- Unconditional hex parses used when stepping through the parser. -/
theorem parseHexD_zero : parseHexD [48] = .ok 0 := by rfl

theorem appendNull_app (x y : Bytes) : appendNull x ++ y = x ++ 0 :: y := by
  simp [appendNull]

theorem writeGlobalHeaderB_eq (ext : Ext) (nf : Nat) (enc : Bytes) :
    writeGlobalHeaderB ext nf enc bCrc32 = .ok (ghBytes nf enc) := by
  simp only [writeGlobalHeaderB, ghBytes, checksum_crc32]

theorem parseGlobalHeaderB_gh (nf : Nat) (enc : Bytes) (rest : Bytes)
    (henc : NulFree enc) :
    parseGlobalHeaderB (ghBytes nf enc ++ rest) =
      .ok ({ fencoding := if enc = [] then bUTF8 else enc,
             fnumfiles := nf, fostype := osName, fextradata := [],
             fchecksumtype := bCrc32 }, rest) := by
  have hm : NulFree (ascii ("NeoFile001")) := by decide
  have ho : NulFree osName := by decide
  have hc : NulFree bCrc32 := by decide
  have h0 : NulFree [48] := by decide
  simp only [ghBytes, parseGlobalHeaderB, appendNulls_cons, appendNulls_nil,
    appendNull_app, List.append_assoc, List.cons_append, List.nil_append,
    readCString_app, readCString_cons0, readCString_cons48,
    hexStr_nulFree, crc32hex_nulFree, henc, hm, ho, hc, h0,
    parseHexD_hexStr, parseHexD_zero, readFieldsN]

theorem recMainB_none (ext : Ext) (meta : RecMeta) (stored : Bytes)
    (cst : Bytes × Bytes × Bytes) :
    recMainB ext meta none stored cst =
      match checksum ext (recHws meta cst.1 (contCsT stored cst.2.1)) cst.1,
            checksum ext stored (contCsT stored cst.2.1) with
      | .error e, _ => .error e
      | .ok _, .error e => .error e
      | .ok hcs, .ok ccs =>
        .ok (recHws meta cst.1 (contCsT stored cst.2.1)
          ++ appendNull hcs ++ appendNull ccs ++ [0]) := by
  have hlen : (recFixedFields meta
      ++ [bNone, [48], [48], bNone, [48], hexStr 2, [48]]
      ++ [cst.1, if stored ≠ [] then cst.2.1 else bNone]).length + 2 = 36 := by
    simp [recFixedFields]
  simp only [recMainB, recHws, recVals34, contCsT]
  rw [hlen]
  rcases h1 : checksum ext _ cst.1 with e | hcs
  · simp
  · rcases h2 : checksum ext stored _ with e2 | ccs
    · simp
    · simp

theorem startsDotSlash_normName (n : Bytes) : startsDotSlash (normName n) = true := by
  unfold normName
  split
  · assumption
  · rfl

theorem normName_idem (n : Bytes) : normName (normName n) = normName n := by
  simp only [normName]
  split
  · simp [*]
  · simp [startsDotSlash]

theorem normName_nulFree (n : Bytes) (h : NulFree n) : NulFree (normName n) := by
  unfold normName
  split
  · exact h
  · intro b hb
    simp at hb
    rcases hb with rfl | rfl | hb
    · omega
    · omega
    · exact h b hb

theorem getF_ok (l : List Bytes) (i : Nat) (h : i < l.length) :
    getF l i = .ok l[i] := by
  simp [getF, h]

theorem indexJson_recVals (meta : RecMeta) (hCsT cCsT hcs ccs : Bytes) :
    indexJsonAndChecks (recVals34 meta hCsT cCsT ++ [hcs, ccs]) =
      .ok { jType := 25, jLen := some 26, jSize := 27, jCst := 28, jCs := 29,
            hCsT := 32, cCsT := 33, hCs := 34, cCs := 35 } := by
  unfold indexJsonAndChecks
  simp [recVals34, recFixedFields, getF, ishex, isHexChar, lower, lowByte,
    bNone, ascii, csnames, parseHexD, parseHexOpt, parseHexCore, hexVal]

set_option maxHeartbeats 1000000 in
/-- Central record round-trip lemma: parsing the bytes a record builder
emitted (with empty JSON side-data), with the content region holding `c2`
(equal to the original `stored` for an intact archive, or a corrupted copy of
the same length), yields the entry when the content digest matches and the
content-checksum-mismatch error naming the entry when it does not. -/
theorem parseRecord_recBytes (ext : Ext) (sc unc sj : Bool) (meta : RecMeta)
    (stored c2 rest : Bytes) (cst : Bytes × Bytes × Bytes) (hcsv ccsv ccsv2 : Bytes)
    (hCs2 : checksum ext c2 (contCsT stored cst.2.1) = .ok ccsv2)
    (hHn : NulFree hcsv) (hCn : NulFree ccsv)
    (hnf1 : NulFree meta.fencoding) (hnf2 : NulFree meta.fcencoding)
    (hnf3 : NulFree meta.fname) (hnf4 : NulFree meta.flinkname)
    (hnf5 : NulFree meta.fcompression) (hnf6 : NulFree meta.funame)
    (hnf7 : NulFree meta.fgname)
    (hnf8 : NulFree cst.1) (hnf9 : NulFree (contCsT stored cst.2.1))
    (hsl : storedLenOf meta = stored.length)
    (hlen : c2.length = stored.length) :
    parseRecord ext false sc unc sj
      (recHws meta cst.1 (contCsT stored cst.2.1)
        ++ appendNull hcsv ++ appendNull ccsv ++ [0] ++ (c2 ++ 0 :: rest)) =
    (if ¬sc = true ∧ storedLenOf meta ≠ 0 ∧ ¬ccsv2 = ccsv then
      .error (.contentMismatch (normName meta.fname))
    else
      .ok (some
        { fid := meta.fid, finode := meta.finode, fname := normName meta.fname,
          flinkname := meta.flinkname, ftype := meta.ftype, fsize := meta.fsize,
          fcsize := meta.fcsize, fatime := meta.fatime, fmtime := meta.fmtime,
          fctime := meta.fctime, fbtime := meta.fbtime, fmode := meta.fmode,
          fwinattributes := meta.fwinattributes, fuid := meta.fuid,
          funame := meta.funame, fgid := meta.fgid, fgname := meta.fgname,
          fcompression := if meta.fcompression = [] then bNone else meta.fcompression,
          fseeknext := hexStr 1, fjsonBytes := [],
          fcontent := some
            (if unc = true ∧ ¬(meta.fcompression = [] ∨ meta.fcompression = bNone)
                ∧ c2 ≠ [] then
              match decompressBytes ext c2 meta.fcompression with
              | .ok v => v
              | .error _ => c2
            else c2) }, rest)) := by
  have hb48 : NulFree [48] := by decide
  have hbn : NulFree bNone := by decide
  have hnfN : NulFree (normName meta.fname) := normName_nulFree _ hnf3
  have hvals : ∀ f ∈ (recVals34 meta cst.1 (contCsT stored cst.2.1) ++ [hcsv, ccsv]),
      NulFree f := by
    simp only [recVals34, recFixedFields, List.cons_append, List.nil_append,
      List.append_nil, List.forall_mem_cons]
    simp only [List.forall_mem_ne, List.not_mem_nil, IsEmpty.forall_iff, and_true]
    repeat' apply And.intro
    all_goals first
      | exact hexStr_nulFree _
      | assumption
      | decide
      | simp
  have hv36 : (recVals34 meta cst.1 (contCsT stored cst.2.1) ++ [hcsv, ccsv]).length
      = 36 := by
    simp [recVals34, recFixedFields]
  have hfields : readFieldsN 0 36
      (appendNulls (recVals34 meta cst.1 (contCsT stored cst.2.1) ++ [hcsv, ccsv])
        ++ (0 :: (c2 ++ 0 :: rest)))
      = (recVals34 meta cst.1 (contCsT stored cst.2.1) ++ [hcsv, ccsv],
         0 :: (c2 ++ 0 :: rest)) := by
    have h := readFieldsN_app _ (0 :: (c2 ++ 0 :: rest)) hvals
    rwa [hv36] at h
  have hp36 : 0 < (hexStr 36).length := List.length_pos.2 (hexStr_ne_nil 36)
  have hbig : (appendNull (hexStr 36)
      ++ appendNulls (recVals34 meta cst.1 (contCsT stored cst.2.1))
      ++ [0] ++ [0]).length - 1 ≠ 0 := by
    simp only [appendNull, List.length_append, List.length_cons, List.length_nil,
      List.length_singleton]
    omega
  have hne : hexStr ((appendNull (hexStr 36)
      ++ appendNulls (recVals34 meta cst.1 (contCsT stored cst.2.1))
      ++ [0] ++ [0]).length - 1) ≠ [48] := by
    intro h
    exact hbig ((hexStr_eq_zero_iff _).1 h)
  have hstream : recHws meta cst.1 (contCsT stored cst.2.1)
        ++ appendNull hcsv ++ appendNull ccsv ++ [0] ++ (c2 ++ 0 :: rest)
      = appendNull (hexStr ((appendNull (hexStr 36)
          ++ appendNulls (recVals34 meta cst.1 (contCsT stored cst.2.1))
          ++ [0] ++ [0]).length - 1))
        ++ (appendNull (hexStr 36)
        ++ (appendNulls (recVals34 meta cst.1 (contCsT stored cst.2.1) ++ [hcsv, ccsv])
          ++ (0 :: (c2 ++ 0 :: rest)))) := by
    simp [recHws, appendNulls_append, appendNulls_cons, appendNulls_nil, appendNull]
  rw [hstream]
  unfold parseRecord
  simp only [appendNull_app, List.append_assoc, readCString_app, hexStr_nulFree, hne,
    if_false, ite_false]
  split
  · rename_i hcond
    rw [hexStr_eq_zero_iff] at hcond
    simp [List.length_append] at hcond
  unfold parseRecordBody
  rw [parseHexD_hexStr]
  show parseRecordCore ext false sc unc sj 36
      (appendNulls (recVals34 meta cst.1 (contCsT stored cst.2.1) ++ [hcsv, ccsv])
        ++ 0 :: (c2 ++ 0 :: rest)) = _
  unfold parseRecordCore
  rw [hfields]
  obtain ⟨V, hV⟩ : ∃ V, recVals34 meta cst.1 (contCsT stored cst.2.1) ++ [hcsv, ccsv]
      = V := ⟨_, rfl⟩
  rw [hV]
  have h36lt : ¬(V.length < 25) := by
    rw [← hV, hv36]
    omega
  have hidx : indexJsonAndChecks V =
      .ok { jType := 25, jLen := some 26, jSize := 27, jCst := 28, jCs := 29,
            hCsT := 32, cCsT := 33, hCs := 34, cCs := 35 } := by
    rw [← hV]
    exact indexJson_recVals meta cst.1 (contCsT stored cst.2.1) hcsv ccsv
  have hg0 : V.getD 0 [] = hexStr meta.ftype := by
    rw [← hV]
    rfl
  have hg3 : V.getD 3 [] = normName meta.fname := by
    rw [← hV]
    rfl
  have hg4 : V.getD 4 [] = meta.flinkname := by
    rw [← hV]
    rfl
  have hg5 : V.getD 5 [] = hexStr meta.fsize := by
    rw [← hV]
    rfl
  have hg6 : V.getD 6 [] = hexStr meta.fatime := by
    rw [← hV]
    rfl
  have hg7 : V.getD 7 [] = hexStr meta.fmtime := by
    rw [← hV]
    rfl
  have hg8 : V.getD 8 [] = hexStr meta.fctime := by
    rw [← hV]
    rfl
  have hg9 : V.getD 9 [] = hexStr meta.fbtime := by
    rw [← hV]
    rfl
  have hg10 : V.getD 10 [] = hexStr meta.fmode := by
    rw [← hV]
    rfl
  have hg11 : V.getD 11 [] = hexStr meta.fwinattributes := by
    rw [← hV]
    rfl
  have hg12 : V.getD 12 [] = meta.fcompression := by
    rw [← hV]
    rfl
  have hg13 : V.getD 13 [] = hexStr meta.fcsize := by
    rw [← hV]
    rfl
  have hg14 : V.getD 14 [] = hexStr meta.fuid := by
    rw [← hV]
    rfl
  have hg15 : V.getD 15 [] = meta.funame := by
    rw [← hV]
    rfl
  have hg16 : V.getD 16 [] = hexStr meta.fgid := by
    rw [← hV]
    rfl
  have hg17 : V.getD 17 [] = meta.fgname := by
    rw [← hV]
    rfl
  have hg18 : V.getD 18 [] = hexStr meta.fid := by
    rw [← hV]
    rfl
  have hg19 : V.getD 19 [] = hexStr meta.finode := by
    rw [← hV]
    rfl
  have hg24 : V.getD 24 [] = hexStr 1 := by
    rw [← hV]
    rfl
  have hf27 : getF V 27 = .ok [48] := by
    rw [← hV]
    rfl
  have hf28 : getF V 28 = .ok bNone := by
    rw [← hV]
    rfl
  have hf29 : getF V 29 = .ok [48] := by
    rw [← hV]
    rfl
  have hf32 : getF V 32 = .ok cst.1 := by
    rw [← hV]
    rfl
  have hf33 : getF V 33 = .ok (contCsT stored cst.2.1) := by
    rw [← hV]
    rfl
  have hf34 : getF V 34 = .ok hcsv := by
    rw [← hV]
    rfl
  have hf35 : getF V 35 = .ok ccsv := by
    rw [← hV]
    rfl
  simp only [h36lt, if_false, ite_false, hidx,
    hg0, hg3, hg4, hg5, hg6, hg7, hg8, hg9, hg10, hg11, hg12, hg13, hg14, hg15,
    hg16, hg17, hg18, hg19, hg24, hf27, hf28, hf29, hf32, hf33, hf34, hf35,
    parseHexD_zero, parseHexD_hexStr, List.drop_succ_cons, List.drop_zero]
  have hfold : (if ¬(meta.fcompression = [] ∨ meta.fcompression = bNone)
      ∧ meta.fcsize > 0 then meta.fcsize else meta.fsize) = storedLenOf meta := rfl
  rw [hfold]
  simp only [normName_idem, gt_iff_lt, Nat.lt_irrefl, if_false, ite_false,
    Bool.false_eq_true, false_or, false_and, and_false, and_true, ne_eq,
    not_false_eq_true, not_true, eq_self_iff_true, true_and, List.take_nil,
    if_true, ite_true]
  by_cases hz : storedLenOf meta = 0
  · have hst : stored = [] := by
      have := hsl
      rw [hz] at this
      exact (List.length_eq_zero.1 this.symm)
    have hc2 : c2 = [] := by
      have h0 : c2.length = 0 := by rw [hlen, ← hsl, hz]
      exact List.length_eq_zero.1 h0
    simp [hz, hst, hc2]
  · have hL : storedLenOf meta = c2.length := by rw [hsl, ← hlen]
    have hz2 : ¬(c2.length = 0) := by rw [← hL]; exact hz
    rw [hL]
    rw [List.take_left, List.drop_left]
    simp only [List.drop_succ_cons, List.drop_zero, hz2, not_false_eq_true,
      true_and, and_true, if_true, ite_true]
    by_cases hsc : sc = true
    · simp [hsc]
    · simp only [hsc, not_false_eq_true, true_and, if_true, ite_true,
        Bool.not_eq_true] at *
      rw [hCs2]
      by_cases hcc : ccsv2 = ccsv
      · simp [hcc]
      · simp [hcc]

/-! ### Writer-side glue: built records in the parse lemma's shape -/

theorem buildRecord_none_eq (ext : Ext) (meta : RecMeta) (stored : Bytes)
    (cst : Bytes × Bytes × Bytes) (hcs ccs : Bytes)
    (hH : checksum ext (recHws meta cst.1 (contCsT stored cst.2.1)) cst.1 = .ok hcs)
    (hC : checksum ext stored (contCsT stored cst.2.1) = .ok ccs) :
    buildRecord ext meta none stored cst =
      .ok (recHws meta cst.1 (contCsT stored cst.2.1)
        ++ appendNull hcs ++ appendNull ccs ++ [0] ++ (stored ++ [0])) := by
  unfold buildRecord
  rw [recMainB_none, hH, hC]
  simp [List.append_assoc]

theorem buildRecord_ne_nil (ext : Ext) (meta : RecMeta) (j : JsonObj)
    (stored : Bytes) (cst : Bytes × Bytes × Bytes) (r : Bytes)
    (h : buildRecord ext meta j stored cst = .ok r) : 1 ≤ r.length := by
  unfold buildRecord at h
  rcases hm : recMainB ext meta j stored cst with e | m
  · rw [hm] at h
    cases h
  · rw [hm] at h
    injection h with h2
    subst h2
    simp
    omega

theorem replaceBS_nulFree (n : Bytes) (h : NulFree n) : NulFree (replaceBS n) := by
  intro b hb
  simp only [replaceBS, List.mem_map] at hb
  obtain ⟨a, ha, rfl⟩ := hb
  split
  · omega
  · exact h a ha

theorem replaceBS_id (n : Bytes) (h : ∀ b ∈ n, b ≠ 92) : replaceBS n = n := by
  unfold replaceBS
  conv_rhs => rw [← List.map_id n]
  refine List.map_congr_left ?_
  intro a ha
  simp [h a ha]

theorem normName_id (n : Bytes) (h : startsDotSlash n = true) : normName n = n := by
  simp [normName, h]

theorem storedOf_auto (ext : Ext) (raw : Bytes) :
    storedOf ext raw (pickAlgo bAuto none raw.length).1 (pickAlgo bAuto none raw.length).2
      = .ok (autoStored ext raw) := by
  have hp : pickAlgo bAuto none raw.length = autoPick raw.length := by
    have h1 : lower (if bAuto = ([] : Bytes) then bNone else bAuto) = bAuto := by decide
    simp [pickAlgo, h1]
  rw [hp]
  unfold storedOf autoStored autoPick
  by_cases h1 : raw.length < 16384
  · simp [h1]
    rfl
  · by_cases h2 : raw.length ≥ 262144
    · simp [h1, h2]
      rfl
    · simp [h1, h2]
      rfl

theorem autoStored_cases (ext : Ext) (raw : Bytes) :
    (autoStored ext raw = (raw, bNone) ∧ raw.length < 16384) ∨
    (autoStored ext raw = (ext.bz2C 9 raw, bBz2) ∧ 262144 ≤ raw.length) ∨
    (autoStored ext raw = (ext.zlibC 6 raw, bZlib) ∧ 16384 ≤ raw.length
      ∧ raw.length < 262144) := by
  unfold autoStored autoPick
  by_cases h1 : raw.length < 16384
  · left
    constructor
    · simp [h1]
      rfl
    · exact h1
  · by_cases h2 : raw.length ≥ 262144
    · right; left
      constructor
      · simp [h1, h2]
        rfl
      · exact h2
    · right; right
      refine ⟨?_, by omega, by omega⟩
      simp [h1, h2]
      rfl

theorem packItemRec_auto_eq (ext : Ext) (now fid : Nat) (it : Item)
    (cst : Bytes × Bytes × Bytes) :
    packItemRec ext now cst bUTF8 bAuto none fid it
      = buildRecord ext
          (itemMeta now bUTF8 fid it (autoStored ext (itemRawT it).1)) none
          (autoStored ext (itemRawT it).1).1 cst := by
  unfold packItemRec
  rw [storedOf_auto]

theorem autoStored_shape (ext : Ext) (raw : Bytes) :
    ((autoStored ext raw).1 = raw ∧ (autoStored ext raw).2 = bNone) ∨
    ((autoStored ext raw).1 = ext.bz2C 9 raw ∧ (autoStored ext raw).2 = bBz2
      ∧ 262144 ≤ raw.length) ∨
    ((autoStored ext raw).1 = ext.zlibC 6 raw ∧ (autoStored ext raw).2 = bZlib
      ∧ 16384 ≤ raw.length) := by
  rcases autoStored_cases ext raw with ⟨h, _⟩ | ⟨h, hl⟩ | ⟨h, hl, _⟩
  · left
    rw [h]
    exact ⟨rfl, rfl⟩
  · right; left
    rw [h]
    exact ⟨rfl, rfl, hl⟩
  · right; right
    rw [h]
    exact ⟨rfl, rfl, hl⟩

set_option maxHeartbeats 4000000 in
/-- One pack-loop iteration with default settings round-trips through
`parseRecord`. -/
theorem packItemRec_auto (ext : Ext) (now fid : Nat) (it : Item)
    (hzne : ∀ (l : Int) (d : Bytes), d ≠ [] → ext.zlibC l d ≠ [])
    (hbne : ∀ (l : Int) (d : Bytes), d ≠ [] → ext.bz2C l d ≠ [])
    (hname : NulFree it.name) :
    ∃ r, packItemRec ext now (bCrc32, bCrc32, bCrc32) bUTF8 bAuto none fid it = .ok r ∧
      ∀ (sc unc sj : Bool) (rest : Bytes),
        parseRecord ext false sc unc sj (r ++ rest)
          = .ok (some (packedEntryAuto ext now unc fid it), rest) := by
  have hnm : NulFree (normName (replaceBS it.name)) :=
    normName_nulFree _ (replaceBS_nulFree _ hname)
  have hU : NulFree bUTF8 := by decide
  have hE : NulFree ([] : Bytes) := by decide
  have hcrc : NulFree bCrc32 := by decide
  set raw := (itemRawT it).1 with hrawdef
  set sa := autoStored ext raw with hsa
  set meta := itemMeta now bUTF8 fid it sa with hmeta
  have hmf : meta.fcompression = sa.2 := rfl
  have hmc : meta.fcsize = sa.1.length := rfl
  have hms : meta.fsize = raw.length := rfl
  have hmn : meta.fname = normName (replaceBS it.name) := rfl
  obtain ⟨ccs, hC, hCn⟩ : ∃ ccs,
      checksum ext sa.1 (contCsT sa.1 bCrc32) = .ok ccs ∧ NulFree ccs := by
    by_cases h : sa.1 = []
    · refine ⟨[48], ?_, by decide⟩
      unfold contCsT
      simp [h, checksum_bNone]
    · refine ⟨crc32hex sa.1, ?_, crc32hex_nulFree _⟩
      unfold contCsT
      simp [h, checksum_crc32]
  have hH : checksum ext (recHws meta bCrc32 (contCsT sa.1 bCrc32)) bCrc32
      = .ok (crc32hex (recHws meta bCrc32 (contCsT sa.1 bCrc32))) := checksum_crc32 _ _
  have hbuild := buildRecord_none_eq ext meta sa.1 (bCrc32, bCrc32, bCrc32)
    (crc32hex (recHws meta bCrc32 (contCsT sa.1 bCrc32))) ccs hH hC
  have hnf5 : NulFree meta.fcompression := by
    rw [hmf]
    rcases autoStored_shape ext raw with ⟨_, h⟩ | ⟨_, h, _⟩ | ⟨_, h, _⟩ <;>
      rw [← hsa] at h
    · rw [h]
      decide
    · rw [h]
      decide
    · rw [h]
      decide
  have hsl : storedLenOf meta = sa.1.length := by
    rcases autoStored_shape ext raw with ⟨h1, h2⟩ | ⟨h1, h2, h3⟩ | ⟨h1, h2, h3⟩ <;>
      rw [← hsa] at h1 h2
    · unfold storedLenOf
      rw [if_neg]
      · rw [hms, h1]
      · rw [hmf, h2]
        simp
    · have hne : sa.1 ≠ [] := by
        rw [h1]
        refine hbne 9 _ ?_
        intro hh
        rw [hh] at h3
        simp at h3
      unfold storedLenOf
      rw [if_pos]
      · exact hmc
      · refine ⟨?_, ?_⟩
        · rw [hmf, h2]
          decide
        · rw [hmc]
          simpa [List.length_pos] using hne
    · have hne : sa.1 ≠ [] := by
        rw [h1]
        refine hzne 6 _ ?_
        intro hh
        rw [hh] at h3
        simp at h3
      unfold storedLenOf
      rw [if_pos]
      · exact hmc
      · refine ⟨?_, ?_⟩
        · rw [hmf, h2]
          decide
        · rw [hmc]
          simpa [List.length_pos] using hne
  have hct : NulFree (contCsT sa.1 bCrc32) := by
    unfold contCsT
    split <;> decide
  refine ⟨_, by rw [packItemRec_auto_eq, ← hrawdef, ← hsa, ← hmeta, hbuild], ?_⟩
  intro sc unc sj rest
  have hparse := parseRecord_recBytes ext sc unc sj meta sa.1 sa.1 rest
    (bCrc32, bCrc32, bCrc32)
    (crc32hex (recHws meta bCrc32 (contCsT sa.1 bCrc32))) ccs ccs
    hC (crc32hex_nulFree _) hCn
    hU hU hnm hE hnf5 hE hE hcrc hct hsl rfl
  have hshape : recHws meta bCrc32 (contCsT sa.1 bCrc32)
        ++ appendNull (crc32hex (recHws meta bCrc32 (contCsT sa.1 bCrc32)))
        ++ appendNull ccs ++ [0] ++ (sa.1 ++ [0]) ++ rest
      = recHws meta bCrc32 (contCsT sa.1 bCrc32)
        ++ appendNull (crc32hex (recHws meta bCrc32 (contCsT sa.1 bCrc32)))
        ++ appendNull ccs ++ [0] ++ (sa.1 ++ 0 :: rest) := by
    simp
  rw [hshape, hparse]
  simp only [ne_eq, not_true_eq_false, and_false, if_false, ite_false]
  unfold packedEntryAuto
  rw [← hrawdef, ← hsa]
  have hfn : normName meta.fname = normName (replaceBS it.name) := by
    rw [hmn, normName_idem]
  rw [hfn]
  simp only [Except.ok.injEq, Prod.mk.injEq, Option.some.injEq, Entry.mk.injEq]
  rw [hmf]
  simp only [ne_eq, and_true, true_and]
  repeat' apply And.intro
  all_goals rfl

theorem parseRecord_endMarker (ext : Ext) (l sc unc sj : Bool) :
    parseRecord ext l sc unc sj endMarker = .ok (none, []) := rfl

theorem parseList_end (ext : Ext) (sc unc sj : Bool) (k : Nat) :
    parseList ext false sc unc sj (k + 1) endMarker = .ok [] := by
  simp [parseList, parseRecord_endMarker]

theorem packItemsRec_length (ext : Ext) (now : Nat) (cst : Bytes × Bytes × Bytes)
    (enc comp : Bytes) (lvl : Option Int) :
    ∀ (items : List Item) (fid : Nat) (body : Bytes),
      packItemsRec ext now cst enc comp lvl fid items = .ok body →
      items.length ≤ body.length := by
  intro items
  induction items with
  | nil =>
    intro fid body h
    simp [packItemsRec] at h
    simp [← h]
  | cons it rest ih =>
    intro fid body h
    unfold packItemsRec at h
    rcases h1 : packItemRec ext now cst enc comp lvl fid it with e | r
    · rw [h1] at h
      cases h
    · rw [h1] at h
      rcases h2 : packItemsRec ext now cst enc comp lvl (fid + 1) rest with e | rs
      · rw [h2] at h
        cases h
      · rw [h2] at h
        injection h with h3
        subst h3
        have hr : 1 ≤ r.length := by
          unfold packItemRec at h1
          rcases h4 : storedOf ext (itemRawT it).1
              (pickAlgo comp lvl (itemRawT it).1.length).1
              (pickAlgo comp lvl (itemRawT it).1.length).2 with e | su
          · rw [h4] at h1
            cases h1
          · rw [h4] at h1
            exact buildRecord_ne_nil ext _ none su.1 cst r h1
        have := ih (fid + 1) rs h2
        simp only [List.length_cons, List.length_append]
        omega

/-- Parsing the records a default-settings pack loop emitted consumes them
all and continues into the rest of the stream. -/
theorem parseList_packBody (ext : Ext) (now : Nat)
    (hzne : ∀ (l : Int) (d : Bytes), d ≠ [] → ext.zlibC l d ≠ [])
    (hbne : ∀ (l : Int) (d : Bytes), d ≠ [] → ext.bz2C l d ≠ [])
    (sc unc sj : Bool) :
    ∀ (items : List Item) (fid : Nat) (body : Bytes),
      (∀ it ∈ items, NulFree it.name) →
      packItemsRec ext now (bCrc32, bCrc32, bCrc32) bUTF8 bAuto none fid items
        = .ok body →
      ∀ (cont : Bytes) (fuel : Nat),
      parseList ext false sc unc sj (items.length + fuel) (body ++ cont)
        = match parseList ext false sc unc sj fuel cont with
          | .error e => .error e
          | .ok es2 => .ok (packedEntriesAuto ext now unc fid items ++ es2) := by
  intro items
  induction items with
  | nil =>
    intro fid body _ h cont fuel
    simp only [packItemsRec] at h
    injection h with h1
    subst h1
    simp only [List.length_nil, Nat.zero_add, List.nil_append, packedEntriesAuto]
    rcases hp : parseList ext false sc unc sj fuel cont with e | es2 <;> simp
  | cons it rest ih =>
    intro fid body hnames h cont fuel
    obtain ⟨r, hr, hp⟩ := packItemRec_auto ext now fid it hzne hbne
      (hnames it (by simp))
    unfold packItemsRec at h
    rw [hr] at h
    rcases h2 : packItemsRec ext now (bCrc32, bCrc32, bCrc32) bUTF8 bAuto none
        (fid + 1) rest with e | rs
    · rw [h2] at h
      cases h
    · rw [h2] at h
      injection h with h3
      subst h3
      have harith : (it :: rest).length + fuel = (rest.length + fuel) + 1 := by
        simp
        omega
      rw [harith]
      show (match parseRecord ext false sc unc sj ((r ++ rs) ++ cont) with
        | Except.error e => Except.error e
        | Except.ok (none, _) => Except.ok []
        | Except.ok (some e, rest2) =>
          match parseList ext false sc unc sj (rest.length + fuel) rest2 with
          | Except.error err => Except.error err
          | Except.ok es => Except.ok (e :: es)) = _
      rw [List.append_assoc, hp sc unc sj (rs ++ cont)]
      show (match parseList ext false sc unc sj (rest.length + fuel) (rs ++ cont) with
        | Except.error err => Except.error err
        | Except.ok es => Except.ok (packedEntryAuto ext now unc fid it :: es)) = _
      rw [ih (fid + 1) rs (fun x hx => hnames x (by simp [hx])) h2 cont fuel]
      rcases hq : parseList ext false sc unc sj fuel cont with e | es2
      · rfl
      · simp [packedEntriesAuto]

theorem packItemsRec_auto_ok (ext : Ext) (now : Nat)
    (hzne : ∀ (l : Int) (d : Bytes), d ≠ [] → ext.zlibC l d ≠ [])
    (hbne : ∀ (l : Int) (d : Bytes), d ≠ [] → ext.bz2C l d ≠ []) :
    ∀ (items : List Item) (fid : Nat), (∀ it ∈ items, NulFree it.name) →
      ∃ body, packItemsRec ext now (bCrc32, bCrc32, bCrc32) bUTF8 bAuto none
        fid items = .ok body := by
  intro items
  induction items with
  | nil => intro fid _; exact ⟨[], rfl⟩
  | cons it rest ih =>
    intro fid hnames
    obtain ⟨r, hr, _⟩ := packItemRec_auto ext now fid it hzne hbne
      (hnames it (by simp))
    obtain ⟨rs, hrs⟩ := ih (fid + 1) (fun x hx => hnames x (by simp [hx]))
    exact ⟨r ++ rs, by simp only [packItemsRec, hr, hrs]⟩

/-- A default-settings pack of any item list succeeds, and parsing the
produced archive recovers the global header data and one entry per item. -/
theorem packIterNeo_auto (ext : Ext) (now : Nat) (items : List Item)
    (hzne : ∀ (l : Int) (d : Bytes), d ≠ [] → ext.zlibC l d ≠ [])
    (hbne : ∀ (l : Int) (d : Bytes), d ≠ [] → ext.bz2C l d ≠ [])
    (hnames : ∀ it ∈ items, NulFree it.name) :
    ∃ arch, packIterNeo ext now items (bCrc32, bCrc32, bCrc32) bUTF8 bAuto none
        = .ok arch ∧
      ∀ sc unc sj, archiveToArrayNeo ext arch false sc unc sj =
        .ok { fencoding := bUTF8, fnumfiles := items.length, fostype := osName,
              fextradata := [], fchecksumtype := bCrc32,
              ffilelist := packedEntriesAuto ext now unc 0 items } := by
  obtain ⟨body, hb⟩ := packItemsRec_auto_ok ext now hzne hbne items 0 hnames
  refine ⟨ghBytes items.length bUTF8 ++ body ++ endMarker, ?_, ?_⟩
  · simp only [packIterNeo, writeGlobalHeaderB_eq, hb]
  · intro sc unc sj
    have hlen := packItemsRec_length ext now (bCrc32, bCrc32, bCrc32) bUTF8
      bAuto none items 0 body hb
    have hU : NulFree bUTF8 := by decide
    simp only [archiveToArrayNeo, List.append_assoc,
      parseGlobalHeaderB_gh items.length bUTF8 (body ++ endMarker) hU]
    have hem : endMarker.length = 4 := rfl
    have hfa : (body ++ endMarker).length + 1
        = items.length + (body.length + 5 - items.length) := by
      simp only [List.length_append, hem]
      omega
    rw [hfa, parseList_packBody ext now hzne hbne sc unc sj items 0 body hnames
      hb endMarker (body.length + 5 - items.length)]
    have hf2 : body.length + 5 - items.length
        = (body.length + 4 - items.length) + 1 := by omega
    rw [hf2, parseList_end]
    simp

theorem packedEntryAuto_fcontent (ext : Ext) (now fid : Nat) (it : Item)
    (hzne : ∀ (l : Int) (d : Bytes), d ≠ [] → ext.zlibC l d ≠ [])
    (hbne : ∀ (l : Int) (d : Bytes), d ≠ [] → ext.bz2C l d ≠ [])
    (hzrt : ∀ (l : Int) (d : Bytes), ext.zlibD (ext.zlibC l d) = some d)
    (hbrt : ∀ (l : Int) (d : Bytes), ext.bz2D (ext.bz2C l d) = some d) :
    (packedEntryAuto ext now true fid it).fcontent = some (itemRawT it).1 := by
  show some _ = some (itemRawT it).1
  rcases autoStored_cases ext (itemRawT it).1 with ⟨h, _⟩ | ⟨h, hl⟩ | ⟨h, hl, _⟩
  · simp only [packedEntryAuto, h]
    norm_num
  · have hraw : (itemRawT it).1 ≠ [] := by
      intro hc
      rw [hc] at hl
      simp at hl
    have hne : ext.bz2C 9 (itemRawT it).1 ≠ [] := hbne 9 _ hraw
    have h1 : ¬(bBz2 = ([] : Bytes) ∨ bBz2 = bNone) := by decide
    have hd : decompressBytes ext (ext.bz2C 9 (itemRawT it).1) bBz2
        = .ok (itemRawT it).1 := by
      show (match ext.bz2D (ext.bz2C 9 (itemRawT it).1) with
        | some v => Except.ok v
        | none => Except.error (NeoErr.codecError bBz2)) = _
      rw [hbrt]
    simp only [packedEntryAuto, h]
    rw [if_pos ⟨trivial, h1, hne⟩, hd]
  · have hraw : (itemRawT it).1 ≠ [] := by
      intro hc
      rw [hc] at hl
      simp at hl
    have hne : ext.zlibC 6 (itemRawT it).1 ≠ [] := hzne 6 _ hraw
    have h1 : ¬(bZlib = ([] : Bytes) ∨ bZlib = bNone) := by decide
    have hd : decompressBytes ext (ext.zlibC 6 (itemRawT it).1) bZlib
        = .ok (itemRawT it).1 := by
      show (match ext.zlibD (ext.zlibC 6 (itemRawT it).1) with
        | some v => Except.ok v
        | none => Except.error (NeoErr.codecError bZlib)) = _
      rw [hzrt]
    simp only [packedEntryAuto, h]
    rw [if_pos ⟨trivial, h1, hne⟩, hd]

theorem packedEntryAuto_proj (ext : Ext) (now fid : Nat)
    (hzne : ∀ (l : Int) (d : Bytes), d ≠ [] → ext.zlibC l d ≠ [])
    (hbne : ∀ (l : Int) (d : Bytes), d ≠ [] → ext.bz2C l d ≠ [])
    (hzrt : ∀ (l : Int) (d : Bytes), ext.zlibD (ext.zlibC l d) = some d)
    (hbrt : ∀ (l : Int) (d : Bytes), ext.bz2D (ext.bz2C l d) = some d)
    (p : Bytes × Option Bytes) (hp : PairOK p) :
    ((packedEntryAuto ext now true fid (itemOfPair p)).fname,
      if (packedEntryAuto ext now true fid (itemOfPair p)).ftype = 5 then none
      else some ((packedEntryAuto ext now true fid (itemOfPair p)).fcontent.getD []))
    = p := by
  obtain ⟨hnf, hds, hbs, hfs⟩ := hp
  have hname : (packedEntryAuto ext now true fid (itemOfPair p)).fname = p.1 := by
    show normName (replaceBS p.1) = p.1
    rw [replaceBS_id p.1 hbs, normName_id p.1 hds]
  have hnn : normName (replaceBS p.1) = p.1 := by
    rw [replaceBS_id p.1 hbs, normName_id p.1 hds]
  rcases hp2 : p.2 with _ | d
  · have hdir : (itemRawT (itemOfPair p)).2 = 5 := by
      simp [itemRawT, itemOfPair, hp2]
    have hty : (packedEntryAuto ext now true fid (itemOfPair p)).ftype = 5 := hdir
    rw [hname, hty, if_pos rfl, ← hp2]
  · have hes : endsSlash p.1 = false := hfs (by simp [hp2])
    have hdir : itemRawT (itemOfPair p) = (d, 0) := by
      simp [itemRawT, itemOfPair, hp2, hes, hnn]
    have hty : (packedEntryAuto ext now true fid (itemOfPair p)).ftype = 0 := by
      show (itemRawT (itemOfPair p)).2 = 0
      rw [hdir]
    have hco := packedEntryAuto_fcontent ext now fid (itemOfPair p) hzne hbne hzrt hbrt
    rw [hdir] at hco
    rw [hname, hty, hco]
    show (p.1, some d) = p
    rw [← hp2]

theorem packedEntriesAuto_proj (ext : Ext) (now : Nat)
    (hzne : ∀ (l : Int) (d : Bytes), d ≠ [] → ext.zlibC l d ≠ [])
    (hbne : ∀ (l : Int) (d : Bytes), d ≠ [] → ext.bz2C l d ≠ [])
    (hzrt : ∀ (l : Int) (d : Bytes), ext.zlibD (ext.zlibC l d) = some d)
    (hbrt : ∀ (l : Int) (d : Bytes), ext.bz2D (ext.bz2C l d) = some d) :
    ∀ (E : List (Bytes × Option Bytes)) (fid : Nat), (∀ p ∈ E, PairOK p) →
      (packedEntriesAuto ext now true fid (E.map itemOfPair)).map
        (fun e => (e.fname, if e.ftype = 5 then none else some (e.fcontent.getD [])))
      = E := by
  intro E
  induction E with
  | nil => intro fid _; rfl
  | cons p rest ih =>
    intro fid hE
    simp only [List.map_cons, packedEntriesAuto, List.map]
    rw [packedEntryAuto_proj ext now fid hzne hbne hzrt hbrt p (hE p (by simp))]
    rw [ih (fid + 1) (fun q hq => hE q (by simp [hq]))]

/-- C1: packing any well-formed entry set `E` (normalised NUL-free names, no
backslashes, file names not slash-terminated) with the in-memory sink and
default settings succeeds, and unpacking the produced archive in memory
returns exactly `E`: every entry's name, bytes, and directory/file marking
are reproduced. -/
theorem claim_C1_pack_unpack_roundtrip (ext : Ext) (now : Nat)
    (E : List (Bytes × Option Bytes))
    (hzne : ∀ (l : Int) (d : Bytes), d ≠ [] → ext.zlibC l d ≠ [])
    (hbne : ∀ (l : Int) (d : Bytes), d ≠ [] → ext.bz2C l d ≠ [])
    (hzrt : ∀ (l : Int) (d : Bytes), ext.zlibD (ext.zlibC l d) = some d)
    (hbrt : ∀ (l : Int) (d : Bytes), ext.bz2D (ext.bz2C l d) = some d)
    (hE : ∀ p ∈ E, PairOK p) :
    ∃ arch, packNeoDict ext now E (bCrc32, bCrc32, bCrc32) bUTF8 bAuto none
        = .ok arch ∧
      unpackNeoMem ext arch false true = .ok E := by
  have hnames : ∀ it ∈ E.map itemOfPair, NulFree it.name := by
    intro it hit
    simp only [List.mem_map] at hit
    obtain ⟨p, hp, rfl⟩ := hit
    exact (hE p hp).1
  obtain ⟨arch, hpack, hparse⟩ :=
    packIterNeo_auto ext now (E.map itemOfPair) hzne hbne hnames
  refine ⟨arch, hpack, ?_⟩
  simp only [unpackNeoMem, hparse false true false]
  rw [packedEntriesAuto_proj ext now hzne hbne hzrt hbrt E 0 hE]

/-- C1 witness: a concrete two-entry set (one file, one directory)
round-trips through pack and unpack with the concrete codec environment. -/
theorem claim_C1_pack_unpack_roundtrip_witness :
    ∃ arch, packNeoDict ext0 0
        [(ascii ("./a"), some [65]), (ascii ("./d/"), none)]
        (bCrc32, bCrc32, bCrc32) bUTF8 bAuto none = .ok arch ∧
      unpackNeoMem ext0 arch false true
        = .ok [(ascii ("./a"), some [65]), (ascii ("./d/"), none)] :=
  claim_C1_pack_unpack_roundtrip ext0 0 _
    (fun _ _ _ h => List.noConfusion h)
    (fun _ _ _ h => List.noConfusion h)
    (fun _ _ => rfl) (fun _ _ => rfl) (by decide)

/-- C4: "auto" codec selection depends only on payload length, with the
spec's thresholds: below 16384 bytes it picks "none", from 262144 bytes up
it picks "bz2" at level 9, and anything in between picks "zlib" at level 6;
the pack loop's codec choice for "auto" with no explicit level is exactly
this pick. -/
theorem claim_C4_auto_pick_thresholds (n : Nat) :
    pickAlgo bAuto none n = autoPick n ∧
    (n < 16384 → autoPick n = (bNone, none)) ∧
    (262144 ≤ n → autoPick n = (bBz2, some 9)) ∧
    (16384 ≤ n → n < 262144 → autoPick n = (bZlib, some 6)) := by
  refine ⟨?_, ?_, ?_, ?_⟩
  · have h1 : lower (if bAuto = ([] : Bytes) then bNone else bAuto) = bAuto := by
      decide
    simp [pickAlgo, h1]
  · intro h
    simp [autoPick, h]
  · intro h
    have h2 : ¬ n < 16384 := by omega
    simp [autoPick, h, h2]
  · intro h1 h2
    have h3 : ¬ n < 16384 := by omega
    have h4 : ¬ n ≥ 262144 := by omega
    simp [autoPick, h3, h4]

/-- C4 witness: a 15 KiB payload picks "none", 100 KiB picks "zlib" at
level 6, 300 KiB picks "bz2" at level 9. -/
theorem claim_C4_auto_pick_thresholds_witness :
    autoPick (15 * 1024) = (bNone, none) ∧
    autoPick (100 * 1024) = (bZlib, some 6) ∧
    autoPick (300 * 1024) = (bBz2, some 9) :=
  ⟨(claim_C4_auto_pick_thresholds (15 * 1024)).2.1 (by decide),
   (claim_C4_auto_pick_thresholds (100 * 1024)).2.2.2 (by decide) (by decide),
   (claim_C4_auto_pick_thresholds (300 * 1024)).2.2.1 (by decide)⟩

/-- C5: for every byte string `B`, every level, and every algorithm in
{none, zlib, gzip, bz2, lzma} (lzma available), compressing and then
decompressing under the same algorithm restores `B`, given that the
underlying codec bindings invert each other. -/
theorem claim_C5_codec_roundtrip (ext : Ext) (B : Bytes) (level : Option Int)
    (algo : Bytes) (halgo : algo ∈ [bNone, bZlib, bGzip, bBz2, bLzma])
    (hlz : ext.lzmaAvail = true)
    (hzrt : ∀ (l : Int) (d : Bytes), ext.zlibD (ext.zlibC l d) = some d)
    (hgrt : ∀ (l : Int) (d : Bytes), ext.gzipD (ext.gzipC l d) = some d)
    (hbrt : ∀ (l : Int) (d : Bytes), ext.bz2D (ext.bz2C l d) = some d)
    (hlrt : ∀ (l : Option Int) (d : Bytes), ext.lzmaD (ext.lzmaC l d) = some d) :
    ∃ p, compressBytes ext B algo level = .ok p ∧
      decompressBytes ext p.1 algo = .ok B := by
  simp only [List.mem_cons, List.not_mem_nil, or_false] at halgo
  rcases halgo with rfl | rfl | rfl | rfl | rfl
  · exact ⟨(B, bNone), rfl, rfl⟩
  · refine ⟨(ext.zlibC (level.getD (-1)) B, bZlib), rfl, ?_⟩
    show (match ext.zlibD (ext.zlibC (level.getD (-1)) B) with
      | some v => Except.ok v
      | none => Except.error (NeoErr.codecError bZlib)) = _
    rw [hzrt]
  · refine ⟨(ext.gzipC (level.getD 9) B, bGzip), rfl, ?_⟩
    show (match ext.gzipD (ext.gzipC (level.getD 9) B) with
      | some v => Except.ok v
      | none => Except.error (NeoErr.codecError bGzip)) = _
    rw [hgrt]
  · refine ⟨(ext.bz2C (level.getD 9) B, bBz2), rfl, ?_⟩
    show (match ext.bz2D (ext.bz2C (level.getD 9) B) with
      | some v => Except.ok v
      | none => Except.error (NeoErr.codecError bBz2)) = _
    rw [hbrt]
  · refine ⟨(ext.lzmaC level B, bLzma), ?_, ?_⟩
    · show (if ext.lzmaAvail then Except.ok (ext.lzmaC level B, bLzma)
        else Except.error NeoErr.lzmaUnavailable) = _
      rw [hlz]
      simp
    · show (if ext.lzmaAvail then
          (match ext.lzmaD (ext.lzmaC level B) with
            | some v => Except.ok v
            | none => Except.error (NeoErr.codecError bLzma))
        else Except.error NeoErr.lzmaUnavailable) = _
      rw [hlz]
      simp only [if_true]
      rw [hlrt]

/-- C5 witness: the round-trip at a concrete payload and the lzma codec in
the concrete codec environment. -/
theorem claim_C5_codec_roundtrip_witness :
    ∃ p, compressBytes ext0 [65, 66, 67] bLzma none = .ok p ∧
      decompressBytes ext0 p.1 bLzma = .ok [65, 66, 67] :=
  claim_C5_codec_roundtrip ext0 [65, 66, 67] none bLzma (by decide) rfl
    (fun _ _ => rfl) (fun _ _ => rfl) (fun _ _ => rfl) (fun _ _ => rfl)

/-- C2: whenever `_index_json_and_checks` succeeds, it has chosen the
six-slot JSON-preamble layout (logical-length slot at index 26, then byte
size, digest type, digest at 27..29) precisely when fields 27 and 28
(0-based 26 and 27) are hexadecimal and field 29 (0-based 28) lowercases to
a recognised digest name; otherwise it chose the five-slot layout
(byte size, digest type, digest at 26..28, no logical-length slot). -/
theorem claim_C2_json_layout_disambiguation (vals : List Bytes) (idx : JIdx)
    (h : indexJsonAndChecks vals = .ok idx) :
    (idx.jLen.isSome = true ↔
      (ishex (vals.getD 26 []) = true ∧ ishex (vals.getD 27 []) = true ∧
        lower (vals.getD 28 []) ∈ csnames)) ∧
    (idx.jLen.isSome = true →
      idx.jLen = some 26 ∧ idx.jSize = 27 ∧ idx.jCst = 28 ∧ idx.jCs = 29) ∧
    (idx.jLen = none → idx.jSize = 26 ∧ idx.jCst = 27 ∧ idx.jCs = 28) := by
  by_cases h0 : vals.length < 25
  · rw [indexJsonAndChecks, if_pos h0] at h
    cases h
  · rcases h1 : getF vals 25 with e | f25
    · rw [indexJsonAndChecks, if_neg h0, h1] at h
      cases h
    · by_cases hsix : ishex (vals.getD 26 []) = true ∧ ishex (vals.getD 27 []) = true
          ∧ lower (vals.getD 28 []) ∈ csnames
      · obtain ⟨ha, hb, hc⟩ := hsix
        have hexp : indexJsonAndChecks vals =
            match getF vals 31 with
            | .error e => .error e
            | .ok craw =>
              match parseHexD craw with
              | .error e => .error e
              | .ok count =>
                .ok { jType := 25, jLen := some 26, jSize := 27, jCst := 28,
                      jCs := 29, hCsT := 31 + 1 + count, cCsT := 31 + 1 + count + 1,
                      hCs := 31 + 1 + count + 2, cCs := 31 + 1 + count + 3 } := by
          have ha' : ishex (vals[26]?.getD []) = true := by
            rw [← List.getD_eq_getElem?_getD]
            exact ha
          have hb' : ishex (vals[27]?.getD []) = true := by
            rw [← List.getD_eq_getElem?_getD]
            exact hb
          have hc' : lower (vals[28]?.getD []) ∈ csnames := by
            rw [← List.getD_eq_getElem?_getD]
            exact hc
          unfold indexJsonAndChecks
          simp [h0, h1, ha', hb', hc']
        rw [hexp] at h
        rcases h2 : getF vals 31 with e | craw
        · rw [h2] at h
          cases h
        · rw [h2] at h
          replace h : (match parseHexD craw with
              | Except.error e => (Except.error e : Except NeoErr JIdx)
              | Except.ok count =>
                Except.ok (JIdx.mk 25 (some 26) 27 28 29 (31 + 1 + count)
                  (31 + 1 + count + 1) (31 + 1 + count + 2) (31 + 1 + count + 3)))
              = Except.ok idx := h
          rcases h3 : parseHexD craw with e | count
          · rw [h3] at h
            cases h
          · rw [h3] at h
            injection h with h4
            subst h4
            refine ⟨⟨fun _ => ⟨ha, hb, hc⟩, fun _ => rfl⟩, fun _ => ⟨rfl, rfl, rfl, rfl⟩,
              fun hno => ?_⟩
            cases hno
      · have hno : ¬((ishex (vals[26]?.getD []) = true
            ∧ ishex (vals[27]?.getD []) = true)
            ∧ lower (vals[28]?.getD []) ∈ csnames) := by
          intro hcon
          apply hsix
          refine ⟨?_, ?_, ?_⟩
          · rw [List.getD_eq_getElem?_getD]
            exact hcon.1.1
          · rw [List.getD_eq_getElem?_getD]
            exact hcon.1.2
          · rw [List.getD_eq_getElem?_getD]
            exact hcon.2
        have hexp : indexJsonAndChecks vals =
            match getF vals 30 with
            | .error e => .error e
            | .ok craw =>
              match parseHexD craw with
              | .error e => .error e
              | .ok count =>
                .ok { jType := 25, jLen := none, jSize := 26, jCst := 27,
                      jCs := 28, hCsT := 30 + 1 + count, cCsT := 30 + 1 + count + 1,
                      hCs := 30 + 1 + count + 2, cCs := 30 + 1 + count + 3 } := by
          unfold indexJsonAndChecks
          simp [h0, h1, hno]
        rw [hexp] at h
        rcases h2 : getF vals 30 with e | craw
        · rw [h2] at h
          cases h
        · rw [h2] at h
          replace h : (match parseHexD craw with
              | Except.error e => (Except.error e : Except NeoErr JIdx)
              | Except.ok count =>
                Except.ok (JIdx.mk 25 none 26 27 28 (30 + 1 + count)
                  (30 + 1 + count + 1) (30 + 1 + count + 2) (30 + 1 + count + 3)))
              = Except.ok idx := h
          rcases h3 : parseHexD craw with e | count
          · rw [h3] at h
            cases h
          · rw [h3] at h
            injection h with h4
            subst h4
            refine ⟨⟨fun hko => ?_, fun hko => absurd hko hsix⟩,
              fun hko => ?_, fun _ => ⟨rfl, rfl, rfl⟩⟩
            · cases hko
            · cases hko

/-- C2 witness: a 32-field value list whose probe fields are hex-and-digest
shaped is indexed with the six-slot layout. -/
theorem claim_C2_json_layout_disambiguation_witness :
    (JIdx.mk 25 (some 26) 27 28 29 32 33 34 35).jLen = some 26 ∧
    (JIdx.mk 25 (some 26) 27 28 29 32 33 34 35).jSize = 27 ∧
    (JIdx.mk 25 (some 26) 27 28 29 32 33 34 35).jCst = 28 ∧
    (JIdx.mk 25 (some 26) 27 28 29 32 33 34 35).jCs = 29 :=
  (claim_C2_json_layout_disambiguation
      (List.replicate 26 [48] ++ [[48], [49], bCrc32, [48], [49], [48]])
      (JIdx.mk 25 (some 26) 27 28 29 32 33 34 35) (by decide)).2.1 (by decide)

/-- C3: the parser never consults the global header's entry count for
termination: an archive whose records come from the pack loop and end in the
`"0","0"` marker decodes all of its records under any header entry-count
hint `k` (the hint is merely echoed back as `fnumfiles`). -/
theorem claim_C3_end_marker_authority (ext : Ext) (now k : Nat)
    (items : List Item) (body : Bytes)
    (hzne : ∀ (l : Int) (d : Bytes), d ≠ [] → ext.zlibC l d ≠ [])
    (hbne : ∀ (l : Int) (d : Bytes), d ≠ [] → ext.bz2C l d ≠ [])
    (hnames : ∀ it ∈ items, NulFree it.name)
    (hb : packItemsRec ext now (bCrc32, bCrc32, bCrc32) bUTF8 bAuto none 0 items
      = .ok body) :
    ∀ sc unc sj, archiveToArrayNeo ext (ghBytes k bUTF8 ++ body ++ endMarker)
        false sc unc sj =
      .ok { fencoding := bUTF8, fnumfiles := k, fostype := osName,
            fextradata := [], fchecksumtype := bCrc32,
            ffilelist := packedEntriesAuto ext now unc 0 items } := by
  intro sc unc sj
  have hlen := packItemsRec_length ext now (bCrc32, bCrc32, bCrc32) bUTF8
    bAuto none items 0 body hb
  have hU : NulFree bUTF8 := by decide
  simp only [archiveToArrayNeo, List.append_assoc,
    parseGlobalHeaderB_gh k bUTF8 (body ++ endMarker) hU]
  have hem : endMarker.length = 4 := rfl
  have hfa : (body ++ endMarker).length + 1
      = items.length + (body.length + 5 - items.length) := by
    simp only [List.length_append, hem]
    omega
  rw [hfa, parseList_packBody ext now hzne hbne sc unc sj items 0 body hnames
    hb endMarker (body.length + 5 - items.length)]
  have hf2 : body.length + 5 - items.length
      = (body.length + 4 - items.length) + 1 := by omega
  rw [hf2, parseList_end]
  simp

/-- C3 witness: an archive with an (incorrect) header count of 7 over an
empty record section still parses, decoding exactly the records present. -/
theorem claim_C3_end_marker_authority_witness :
    archiveToArrayNeo ext0 (ghBytes 7 bUTF8 ++ [] ++ endMarker) false false
        false false =
      .ok { fencoding := bUTF8, fnumfiles := 7, fostype := osName,
            fextradata := [], fchecksumtype := bCrc32, ffilelist := [] } :=
  claim_C3_end_marker_authority ext0 0 7 [] []
    (fun _ _ _ h => List.noConfusion h)
    (fun _ _ _ h => List.noConfusion h)
    (fun _ h => absurd h (List.not_mem_nil _)) rfl false false false

/-- C9: when the caller-chosen codec raises at compress time, the pack
pipeline's compress step falls back exactly once to zlib at the provided
level (or 6 when none was given) — the fallback itself always succeeds —
and the metadata handed to the record builder records "zlib" as the
compression actually used. -/
theorem claim_C9_zlib_fallback (ext : Ext) (raw algo : Bytes)
    (level : Option Int) (e : NeoErr)
    (herr : compressBytes ext raw algo level = .error e) :
    storedOf ext raw algo level = .ok (ext.zlibC (level.getD 6) raw, bZlib) ∧
    ∀ (now : Nat) (enc : Bytes) (fid : Nat) (it : Item),
      (itemMeta now enc fid it (ext.zlibC (level.getD 6) raw, bZlib)).fcompression
        = bZlib := by
  refine ⟨?_, fun _ _ _ _ => rfl⟩
  unfold storedOf
  rw [herr]
  cases level <;> rfl

/-- C9 witness: an unknown codec name errors and the step stores the
zlib-at-6 fallback. -/
theorem claim_C9_zlib_fallback_witness :
    storedOf ext0 [65] (ascii ("brotli")) none = .ok (122 :: [65], bZlib) ∧
    ∀ (now : Nat) (enc : Bytes) (fid : Nat) (it : Item),
      (itemMeta now enc fid it (122 :: [65], bZlib)).fcompression = bZlib :=
  claim_C9_zlib_fallback ext0 [65] (ascii ("brotli")) none
    (.unknownCompression (ascii ("brotli"))) (by decide)

/-- C10 (implicit): with decompression requested, a record whose stored
content fails to decompress under its recorded algorithm parses without
error; the entry carries the stored (still-compressed) bytes as content
once checksum verification is past (here: digest type "none"). -/
theorem claim_C10_silent_decompress_failure (ext : Ext) (meta : RecMeta)
    (c2 rest : Bytes)
    (hzd : ext.zlibD c2 = none)
    (hcomp : meta.fcompression = bZlib)
    (hnf1 : NulFree meta.fencoding) (hnf2 : NulFree meta.fcencoding)
    (hnf3 : NulFree meta.fname) (hnf4 : NulFree meta.flinkname)
    (hnf6 : NulFree meta.funame) (hnf7 : NulFree meta.fgname)
    (hsl : storedLenOf meta = c2.length)
    (hne : c2 ≠ []) :
    ∃ en, parseRecord ext false false true false
        (recHws meta bNone (contCsT c2 bNone) ++ appendNull [48] ++ appendNull [48]
          ++ [0] ++ (c2 ++ 0 :: rest)) = .ok (some en, rest) ∧
      en.fcontent = some c2 ∧ en.fcompression = bZlib := by
  have hnf5 : NulFree meta.fcompression := by
    rw [hcomp]
    decide
  have hcsT : NulFree (contCsT c2 bNone) := by
    unfold contCsT
    split <;> decide
  have hcs2 : checksum ext c2 (contCsT c2 bNone) = .ok [48] := by
    unfold contCsT
    split <;> exact checksum_bNone ext c2
  have key := parseRecord_recBytes ext false true false meta c2 c2 rest
    (bNone, bNone, bNone) [48] [48] [48] hcs2 (by decide) (by decide)
    hnf1 hnf2 hnf3 hnf4 hnf5 hnf6 hnf7 (by decide) hcsT hsl rfl
  rw [if_neg (fun hcon => hcon.2.2 rfl)] at key
  have hh : ¬(meta.fcompression = [] ∨ meta.fcompression = bNone) := by
    rw [hcomp]
    decide
  have hd : decompressBytes ext c2 meta.fcompression
      = .error (.codecError bZlib) := by
    rw [hcomp]
    show (match ext.zlibD c2 with
      | some v => Except.ok v
      | none => Except.error (NeoErr.codecError bZlib)) = _
    rw [hzd]
  refine ⟨_, key, ?_, ?_⟩
  · show some (if true = true ∧ ¬(meta.fcompression = [] ∨ meta.fcompression = bNone)
        ∧ c2 ≠ [] then
        match decompressBytes ext c2 meta.fcompression with
        | .ok v => v
        | .error _ => c2
      else c2) = some c2
    rw [if_pos ⟨rfl, hh, hne⟩, hd]
  · show (if meta.fcompression = [] then bNone else meta.fcompression) = bZlib
    rw [hcomp]
    decide

/-- C10 witness: the concrete record (content `[65]`, recorded codec zlib,
a decompressor that rejects it) parses to an entry holding `[65]`. -/
theorem claim_C10_silent_decompress_failure_witness :
    ∃ en, parseRecord ext0 false false true false
        (recHws metaC10 bNone (contCsT [65] bNone) ++ appendNull [48]
          ++ appendNull [48] ++ [0] ++ ([65] ++ 0 :: [])) = .ok (some en, []) ∧
      en.fcontent = some [65] ∧ en.fcompression = bZlib :=
  claim_C10_silent_decompress_failure ext0 metaC10 [65] [] rfl rfl
    (by decide) (by decide) (by decide) (by decide) (by decide) (by decide)
    (by decide) (by decide)

/-- C6 counterexample: a concrete default-built record does NOT use the
five-slot preamble: among its 36 delimited fields the logical-length slot
("0", at value index 26) is present, and the decoder's probe selects the
six-slot layout for it. -/
theorem claim_C6_counterexample :
    buildRecord ext0 meta0 none [] (bNone, bNone, bNone) = .ok rec6 ∧
    (readFieldsN 0 38 rec6).1.getD 28 [] = hexStr 0 ∧
    indexJsonAndChecks ((readFieldsN 0 38 rec6).1.drop 2)
      = .ok (JIdx.mk 25 (some 26) 27 28 29 32 33 34 35) := by
  set_option maxRecDepth 4000 in
  exact ⟨rfl, by decide, by decide⟩

/-- C6 amended: `_build_record` always emits the six-slot JSON preamble —
for empty JSON side-data the slots are json_type "none", logical length "0",
byte size "0", digest type "none", digest "0" — and the decoder's probe
classifies every such record as six-slot. -/
theorem claim_C6_always_six_slot (ext : Ext) (meta : RecMeta) (stored : Bytes)
    (cst : Bytes × Bytes × Bytes) (hcs ccs : Bytes)
    (hH : checksum ext (recHws meta cst.1 (contCsT stored cst.2.1)) cst.1 = .ok hcs)
    (hC : checksum ext stored (contCsT stored cst.2.1) = .ok ccs) :
    ∃ r, buildRecord ext meta none stored cst = .ok r ∧
      recVals34 meta cst.1 (contCsT stored cst.2.1)
        = recFixedFields meta
          ++ [bNone, hexStr 0, hexStr 0, bNone, [48], hexStr 2, [48]]
          ++ [cst.1, contCsT stored cst.2.1] ∧
      indexJsonAndChecks
          (recVals34 meta cst.1 (contCsT stored cst.2.1) ++ [hcs, ccs])
        = .ok (JIdx.mk 25 (some 26) 27 28 29 32 33 34 35) :=
  ⟨_, buildRecord_none_eq ext meta stored cst hcs ccs hH hC, rfl,
    indexJson_recVals meta _ _ hcs ccs⟩

/-- C6 amended witness: the six-slot emission at a concrete record. -/
theorem claim_C6_always_six_slot_witness :
    ∃ r, buildRecord ext0 metaC10 none [65] (bNone, bNone, bNone) = .ok r ∧
      recVals34 metaC10 bNone (contCsT [65] bNone)
        = recFixedFields metaC10
          ++ [bNone, hexStr 0, hexStr 0, bNone, [48], hexStr 2, [48]]
          ++ [bNone, contCsT [65] bNone] ∧
      indexJsonAndChecks (recVals34 metaC10 bNone (contCsT [65] bNone)
          ++ [[48], [48]])
        = .ok (JIdx.mk 25 (some 26) 27 28 29 32 33 34 35) :=
  claim_C6_always_six_slot ext0 metaC10 [65] (bNone, bNone, bNone) [48] [48]
    (checksum_bNone ext0 _) (by rfl)

theorem readFieldsN_length (d n : Nat) : ∀ s : Bytes,
    ((readFieldsN d n s).1).length = n := by
  induction n with
  | zero => intro s; rfl
  | succ k ih => intro s; simp [readFieldsN, ih]

/-- C8 counterexample: a record stream cut off in the middle of its last
header field (one byte of the content-digest value present, its delimiter
and everything after missing) still parses successfully — the stream
ending mid-field is NOT reported as an error; the partial bytes are used
as the field. -/
theorem claim_C8_counterexample :
    isOkE (parseRecord ext0 false true false false
      (recHws meta8 bNone bNone ++ appendNull [48] ++ [48])) = true :=
  rfl

/-- C8 amended: the truncated-record error is raised exactly by the
field-count guard — a declared count below 25 fails with `recordTooShort`
(the count read back, since end-of-stream reads yield empty fields, never
fewer) — while a stream that ends in the middle of a field is not an
error: the delimiter scan returns the bytes read so far as the field. -/
theorem claim_C8_truncated_record (ext : Ext) (lo sc unc sj : Bool)
    (nFields : Nat) (s : Bytes) (f : Bytes) (hlt : nFields < 25)
    (hf : NulFree f) :
    parseRecordCore ext lo sc unc sj nFields s
        = .error (.recordTooShort nFields) ∧
    readCString 0 f = (f, []) := by
  constructor
  · have hv := readFieldsN_length 0 nFields s
    simp [parseRecordCore, hv, hlt]
  · induction f with
    | nil => rfl
    | cons c rest ih =>
      have hc : c ≠ 0 := hf c (by simp)
      have hr : NulFree rest := fun b hb => hf b (by simp [hb])
      simp [readCString, hc, ih hr]

/-- C8 amended witness: a record declaring 3 fields is rejected as too
short, and a delimiter-free stream is returned whole as a partial field. -/
theorem claim_C8_truncated_record_witness :
    parseRecordCore ext0 false false false false 3 [65, 66]
        = .error (.recordTooShort 3) ∧
    readCString 0 [65, 66] = ([65, 66], []) :=
  claim_C8_truncated_record ext0 false false false false 3 [65, 66] [65, 66]
    (by decide) (by decide)

theorem crcStep_lt (s : Nat) (h : s < 2 ^ 32) : crcStep s < 2 ^ 32 := by
  unfold crcStep
  have h2 : s / 2 < 2 ^ 32 := lt_of_le_of_lt (Nat.div_le_self s 2) h
  split
  · exact Nat.xor_lt_two_pow h2 (by norm_num)
  · simpa using h2

theorem crcStepInv_crcStep (s : Nat) (h : s < 2 ^ 32) :
    crcStepInv (crcStep s) = s := by
  have hs2 : s / 2 < 2 ^ 31 := by omega
  unfold crcStep crcStepInv
  by_cases hp : s % 2 = 1
  · rw [if_pos hp]
    have htb : (s / 2 ^^^ 0xEDB88320).testBit 31 = true := by
      rw [Nat.testBit_xor, Nat.testBit_lt_two_pow hs2]
      decide
    rw [if_pos (Nat.testBit_implies_ge htb)]
    rw [Nat.xor_assoc, Nat.xor_self, Nat.xor_zero]
    omega
  · rw [if_neg hp, Nat.xor_zero]
    rw [if_neg (by omega)]
    omega

theorem crcStep_inj (a b : Nat) (ha : a < 2 ^ 32) (hb : b < 2 ^ 32)
    (h : crcStep a = crcStep b) : a = b := by
  rw [← crcStepInv_crcStep a ha, ← crcStepInv_crcStep b hb, h]

theorem crcIter_lt (n : Nat) : ∀ a, a < 2 ^ 32 → crcStep^[n] a < 2 ^ 32 := by
  induction n with
  | zero => intro a ha; simpa using ha
  | succ m ih =>
    intro a ha
    rw [Function.iterate_succ_apply]
    exact ih _ (crcStep_lt a ha)

theorem crcIter_inj (n : Nat) : ∀ a b, a < 2 ^ 32 → b < 2 ^ 32 →
    crcStep^[n] a = crcStep^[n] b → a = b := by
  induction n with
  | zero => intro a b _ _ h; simpa using h
  | succ m ih =>
    intro a b ha hb h
    rw [Function.iterate_succ_apply', Function.iterate_succ_apply'] at h
    exact ih a b ha hb (crcStep_inj _ _ (crcIter_lt m a ha) (crcIter_lt m b hb) h)

theorem crcByte_eq_iterate (s b : Nat) : crcByte s b = crcStep^[8] (s ^^^ b) := rfl

theorem crcByte_lt (s b : Nat) (hs : s < 2 ^ 32) (hb : b < 2 ^ 32) :
    crcByte s b < 2 ^ 32 := by
  rw [crcByte_eq_iterate]
  exact crcIter_lt 8 _ (Nat.xor_lt_two_pow hs hb)

theorem crcByte_inj_xor (s s' b b' : Nat) (hs : s < 2 ^ 32) (hs' : s' < 2 ^ 32)
    (hb : b < 2 ^ 32) (hb' : b' < 2 ^ 32)
    (h : crcByte s b = crcByte s' b') : s ^^^ b = s' ^^^ b' := by
  rw [crcByte_eq_iterate, crcByte_eq_iterate] at h
  exact crcIter_inj 8 _ _ (Nat.xor_lt_two_pow hs hb) (Nat.xor_lt_two_pow hs' hb') h

theorem foldl_crcByte_lt (l : Bytes) (hl : ∀ c ∈ l, c < 2 ^ 32) :
    ∀ s, s < 2 ^ 32 → l.foldl crcByte s < 2 ^ 32 := by
  induction l with
  | nil => intro s hs; simpa using hs
  | cons c r ih =>
    intro s hs
    rw [List.foldl_cons]
    exact ih (fun d hd => hl d (by simp [hd])) _
      (crcByte_lt s c hs (hl c (by simp)))

theorem foldl_crcByte_inj (l : Bytes) (hl : ∀ c ∈ l, c < 2 ^ 32) :
    ∀ s s', s < 2 ^ 32 → s' < 2 ^ 32 →
      l.foldl crcByte s = l.foldl crcByte s' → s = s' := by
  induction l with
  | nil => intro s s' _ _ h; simpa using h
  | cons c r ih =>
    intro s s' hs hs' h
    rw [List.foldl_cons, List.foldl_cons] at h
    have hc : c < 2 ^ 32 := hl c (by simp)
    have h2 := ih (fun d hd => hl d (by simp [hd])) _ _
      (crcByte_lt s c hs hc) (crcByte_lt s' c hs' hc) h
    have h3 := crcByte_inj_xor s s' c c hs hs' hc hc h2
    have h4 := congrArg (fun t => t ^^^ c) h3
    simpa [Nat.xor_assoc, Nat.xor_self, Nat.xor_zero] using h4

theorem crc32_set_ne (data : Bytes) (i x : Nat)
    (hd : ∀ c ∈ data, c < 256) (hx : x < 256) (hi : i < data.length)
    (hne : x ≠ data.getD i 0) :
    crc32 (data.set i x) ≠ crc32 data := by
  intro h
  have hd32 : ∀ c ∈ data, c < 2 ^ 32 :=
    fun c hc => lt_trans (hd c hc) (by norm_num)
  have hsplit : data = data.take i ++ data[i] :: data.drop (i + 1) := by
    conv_lhs => rw [← List.take_append_drop i data]
    rw [List.drop_eq_getElem_cons hi]
  have hset : data.set i x = data.take i ++ x :: data.drop (i + 1) := by
    rw [List.set_eq_take_append_cons_drop, if_pos hi]
  have hF : (0xFFFFFFFF : Nat) < 2 ^ 32 := by norm_num
  have htk : ∀ c ∈ data.take i, c < 2 ^ 32 :=
    fun c hc => hd32 c (List.mem_of_mem_take hc)
  have hdr : ∀ c ∈ data.drop (i + 1), c < 2 ^ 32 :=
    fun c hc => hd32 c (List.mem_of_mem_drop hc)
  have hgi : data[i] < 2 ^ 32 := hd32 _ (List.getElem_mem hi)
  have hx32 : x < 2 ^ 32 := lt_trans hx (by norm_num)
  have hs0 : (data.take i).foldl crcByte 0xFFFFFFFF < 2 ^ 32 :=
    foldl_crcByte_lt _ htk _ hF
  have hm1 : crcByte ((data.take i).foldl crcByte 0xFFFFFFFF) x < 2 ^ 32 :=
    crcByte_lt _ _ hs0 hx32
  have hm2 : crcByte ((data.take i).foldl crcByte 0xFFFFFFFF) data[i] < 2 ^ 32 :=
    crcByte_lt _ _ hs0 hgi
  have hf1 : (data.set i x).foldl crcByte 0xFFFFFFFF < 2 ^ 32 := by
    rw [hset]
    rw [List.foldl_append]
    exact foldl_crcByte_lt _ hdr _ hm1
  have hf2 : data.foldl crcByte 0xFFFFFFFF < 2 ^ 32 := foldl_crcByte_lt _ hd32 _ hF
  unfold crc32 at h
  rw [Nat.mod_eq_of_lt (Nat.xor_lt_two_pow hf1 hF),
      Nat.mod_eq_of_lt (Nat.xor_lt_two_pow hf2 hF)] at h
  have hfold : (data.set i x).foldl crcByte 0xFFFFFFFF
      = data.foldl crcByte 0xFFFFFFFF := by
    have h5 := congrArg (fun t => t ^^^ 0xFFFFFFFF) h
    simpa [Nat.xor_assoc, Nat.xor_self, Nat.xor_zero] using h5
  rw [hset] at hfold
  conv_rhs at hfold => rw [hsplit]
  rw [List.foldl_append, List.foldl_append, List.foldl_cons, List.foldl_cons]
    at hfold
  have h6 := foldl_crcByte_inj _ hdr _ _ hm1 hm2 hfold
  have h7 := crcByte_inj_xor _ _ x data[i] hs0 hs0 hx32 hgi h6
  have h8 := congrArg (fun t => (data.take i).foldl crcByte 0xFFFFFFFF ^^^ t) h7
  simp only [← Nat.xor_assoc, Nat.xor_self, Nat.zero_xor] at h8
  apply hne
  rw [h8, List.getD_eq_getElem?_getD, List.getElem?_eq_getElem hi]
  rfl

theorem parseHexCore_replicate48 (k : Nat) :
    ∀ acc, parseHexCore (List.replicate k 48) acc = some (acc * 16 ^ k) := by
  induction k with
  | zero => intro acc; simp [parseHexCore]
  | succ m ih =>
    intro acc
    rw [List.replicate_succ]
    show (match hexVal 48 with
      | some v => parseHexCore (List.replicate m 48) (acc * 16 + v)
      | none => none) = _
    rw [show hexVal 48 = some 0 from rfl]
    show parseHexCore (List.replicate m 48) (acc * 16 + 0) = _
    rw [ih (acc * 16 + 0)]
    congr 1
    ring

theorem parseHexCore_hexStr0 (n : Nat) : parseHexCore (hexStr n) 0 = some n := by
  have h := parseHexOpt_hexStr n
  unfold parseHexOpt at h
  rwa [if_neg (hexStr_ne_nil n)] at h

theorem parseHexCore_crc32hex (d : Bytes) :
    parseHexCore (crc32hex d) 0 = some (crc32 d) := by
  unfold crc32hex
  rw [parseHexCore_append, parseHexCore_replicate48]
  simpa using parseHexCore_hexStr0 (crc32 d)

theorem crc32hex_inj (d e : Bytes) (h : crc32hex d = crc32hex e) :
    crc32 d = crc32 e := by
  have h1 := parseHexCore_crc32hex d
  rw [h, parseHexCore_crc32hex e] at h1
  exact (Option.some.injEq _ _ ▸ h1).symm

theorem crc32hex_set_ne (data : Bytes) (i x : Nat)
    (hd : ∀ c ∈ data, c < 256) (hx : x < 256) (hi : i < data.length)
    (hne : x ≠ data.getD i 0) :
    crc32hex (data.set i x) ≠ crc32hex data :=
  fun h => crc32_set_ne data i x hd hx hi hne (crc32hex_inj _ _ h)

/-- C7: for a record packed with the crc32 content digest and non-empty
stored content, corrupting any single byte of the content region makes
parsing with checksum verification enabled fail with the content-mismatch
error naming the entry, while the intact record parses successfully to an
entry of that name.  (The first conjunct ties the parsed byte stream to
the record the builder emitted.) -/
theorem claim_C7_content_corruption_detected (ext : Ext) (meta : RecMeta)
    (stored rest : Bytes) (i x : Nat) (unc sj : Bool)
    (hnf1 : NulFree meta.fencoding) (hnf2 : NulFree meta.fcencoding)
    (hnf3 : NulFree meta.fname) (hnf4 : NulFree meta.flinkname)
    (hnf5 : NulFree meta.fcompression) (hnf6 : NulFree meta.funame)
    (hnf7 : NulFree meta.fgname)
    (hsl : storedLenOf meta = stored.length)
    (hne : stored ≠ [])
    (hbytes : ∀ c ∈ stored, c < 256) (hx : x < 256)
    (hi : i < stored.length) (hxne : x ≠ stored.getD i 0) :
    buildRecord ext meta none stored (bCrc32, bCrc32, bCrc32)
      = .ok (recHws meta bCrc32 bCrc32
          ++ appendNull (crc32hex (recHws meta bCrc32 bCrc32))
          ++ appendNull (crc32hex stored) ++ [0] ++ (stored ++ [0])) ∧
    parseRecord ext false false unc sj
        (recHws meta bCrc32 bCrc32
          ++ appendNull (crc32hex (recHws meta bCrc32 bCrc32))
          ++ appendNull (crc32hex stored) ++ [0] ++ (stored.set i x ++ 0 :: rest))
      = .error (.contentMismatch (normName meta.fname)) ∧
    ∃ en, parseRecord ext false false unc sj
        (recHws meta bCrc32 bCrc32
          ++ appendNull (crc32hex (recHws meta bCrc32 bCrc32))
          ++ appendNull (crc32hex stored) ++ [0] ++ (stored ++ 0 :: rest))
      = .ok (some en, rest) ∧ en.fname = normName meta.fname := by
  have hcct : contCsT stored (bCrc32, bCrc32, bCrc32).2.1 = bCrc32 := by
    unfold contCsT
    rw [if_pos hne]
  have hCn : NulFree (crc32hex stored) := crc32hex_nulFree stored
  have hHn : NulFree (crc32hex (recHws meta bCrc32 bCrc32)) :=
    crc32hex_nulFree _
  have hnf8 : NulFree (bCrc32, bCrc32, bCrc32).1 := by decide
  have hnf9 : NulFree (contCsT stored (bCrc32, bCrc32, bCrc32).2.1) := by
    rw [hcct]
    decide
  have hln : storedLenOf meta ≠ 0 := by
    rw [hsl]
    intro hc
    exact hne (List.eq_nil_of_length_eq_zero hc)
  refine ⟨?_, ?_, ?_⟩
  · have hb := buildRecord_none_eq ext meta stored (bCrc32, bCrc32, bCrc32)
      (crc32hex (recHws meta (bCrc32, bCrc32, bCrc32).1
        (contCsT stored (bCrc32, bCrc32, bCrc32).2.1))) (crc32hex stored)
      (by rw [hcct]; exact checksum_crc32 ext _)
      (by rw [hcct]; exact checksum_crc32 ext stored)
    rw [hcct] at hb
    exact hb
  · have key := parseRecord_recBytes ext false unc sj meta stored
      (stored.set i x) rest (bCrc32, bCrc32, bCrc32)
      (crc32hex (recHws meta bCrc32 bCrc32)) (crc32hex stored)
      (crc32hex (stored.set i x))
      (by rw [hcct]; exact checksum_crc32 ext _)
      hHn hCn hnf1 hnf2 hnf3 hnf4 hnf5 hnf6 hnf7 hnf8 hnf9 hsl
      (List.length_set stored i x)
    rw [hcct] at key
    rw [if_pos ⟨fun hc => Bool.noConfusion hc, hln,
      crc32hex_set_ne stored i x hbytes hx hi hxne⟩] at key
    exact key
  · have key := parseRecord_recBytes ext false unc sj meta stored
      stored rest (bCrc32, bCrc32, bCrc32)
      (crc32hex (recHws meta bCrc32 bCrc32)) (crc32hex stored)
      (crc32hex stored)
      (by rw [hcct]; exact checksum_crc32 ext stored)
      hHn hCn hnf1 hnf2 hnf3 hnf4 hnf5 hnf6 hnf7 hnf8 hnf9 hsl rfl
    rw [hcct] at key
    rw [if_neg (fun hc => hc.2.2 rfl)] at key
    exact ⟨_, key, rfl⟩

/-- C7 witness: flipping the single content byte of a concrete crc32-packed
record is detected; the intact record verifies. -/
theorem claim_C7_content_corruption_detected_witness :
    buildRecord ext0 meta7 none [65] (bCrc32, bCrc32, bCrc32)
      = .ok (recHws meta7 bCrc32 bCrc32
          ++ appendNull (crc32hex (recHws meta7 bCrc32 bCrc32))
          ++ appendNull (crc32hex [65]) ++ [0] ++ ([65] ++ [0])) ∧
    parseRecord ext0 false false false false
        (recHws meta7 bCrc32 bCrc32
          ++ appendNull (crc32hex (recHws meta7 bCrc32 bCrc32))
          ++ appendNull (crc32hex [65]) ++ [0] ++ ([65].set 0 66 ++ 0 :: []))
      = .error (.contentMismatch (normName meta7.fname)) ∧
    ∃ en, parseRecord ext0 false false false false
        (recHws meta7 bCrc32 bCrc32
          ++ appendNull (crc32hex (recHws meta7 bCrc32 bCrc32))
          ++ appendNull (crc32hex [65]) ++ [0] ++ ([65] ++ 0 :: []))
      = .ok (some en, []) ∧ en.fname = normName meta7.fname :=
  claim_C7_content_corruption_detected ext0 meta7 [65] [] 0 66 false false
    (by decide) (by decide) (by decide) (by decide) (by decide) (by decide)
    (by decide) (by decide) (by decide) (by decide) (by decide) (by decide)
    (by decide)

end PyNeoFile
